import Mathlib

/-!
# rndlinux.c: the /dev/random entropy gatherer of GnuPG

A shallow embedding of `cipher/rndlinux.c`.  The operating system is an
explicit environment: the answer of `open`/`fstat`/`S_ISCHR` for each device
path, the value returned by the i-th call of `select`, and the result of the
j-th call of `read`.  Every system call and every message the code prints is
recorded in a trace, so that statements about which calls were made, with which
arguments and how often, are statements about a list of events.

`g10_log_fatal` ends the process: it is the outcome `Stop.fatal`.  A failing
`assert` is the outcome `Stop.assert_failed`.  A call whose environment has no
further answer is still waiting inside `select` or `read`: `Stop.blocked`.
-/

namespace Rndlinux

/-- The `byte` of types.h; the bytes are payload only, no arithmetic is done on them. -/
abbrev byte := Nat

/-- The errno value EINTR of errno.h (its Linux value). -/
def EINTR : Int := 4

/-- Modelled from the spec: the two device path macros of config.h,
`NAME_OF_DEV_RANDOM` (blocking/strong) and `NAME_OF_DEV_URANDOM`
(non-blocking/fast), two distinct character-special device paths. -/
inductive DevName where
  | NAME_OF_DEV_RANDOM
  | NAME_OF_DEV_URANDOM
  deriving DecidableEq, Repr

/-- Build configuration: whether `defined(__sparc__) && defined(__linux__)`
holds, and whether `IS_MODULE` is defined. -/
structure Config where
  sparc_linux : Bool
  is_module : Bool
  deriving DecidableEq, Repr

/-- What the operating system answers when a device path is opened:
the value of `open`, the value of `fstat`, and `S_ISCHR(sb.st_mode)`. -/
structure OpenAnswer where
  open_fd : Int
  fstat_rc : Int
  is_chr : Bool
  deriving DecidableEq, Repr

/-- The result of one `read(fd, buffer, length)`: `err errno` is the return
value -1 with that errno; `ok data` is the return value `data.length`, the
bytes `data` being what the device hands over.  The count is taken as the
value stored in `int n`: a single `read` returns a count that fits `int`
(Linux transfers at most 0x7ffff000 bytes per call). -/
inductive ReadRes where
  | err (errno : Int)
  | ok (data : List byte)
  deriving DecidableEq, Repr

/-- The environment of one call of `gather_random`. -/
structure Env where
  os : DevName → OpenAnswer
  selects : List Int
  reads : List ReadRes

/-- Modelled from the spec: `g10_log_fatal`, defined outside this file, logs
its message and terminates the process; these are the messages this file
passes to it. -/
inductive Fatal where
  | cant_open (name : DevName)
  | stat_failed (name : DevName)
  | invalid_device
  | read_error (errno : Int)
  deriving DecidableEq, Repr

/-- Ways a call does not return to its caller. -/
inductive Stop where
  | fatal (f : Fatal)
  | assert_failed
  | blocked
  deriving DecidableEq, Repr

/-- Observable actions: calls of `open_device`, `select` (file descriptor and
return value), `read` (file descriptor, offset of the buffer pointer from the
start of the caller's buffer, count, result), and the calls that print:
`notice need` is `tty_printf` with the format "Not enough random bytes
available ... (Need %d more bytes)" and the argument `need`, `select_error`
is `tty_printf` with the format "select() error: %s", `bogus n` is
`g10_log_error` for a bogus read. -/
inductive Event where
  | open_device (name : DevName) (minor : Int)
  | select (fd : Int) (rc : Int)
  | notice (need : Nat)
  | select_error
  | read (fd : Int) (off : Nat) (count : Nat) (res : ReadRes)
  | bogus (n : Nat)
  deriving DecidableEq, Repr

/-- Lines 62-80.  `open_device(name, minor)`: the descriptor, or a fatal message. -/
def open_device (cfg : Config) (os : DevName → OpenAnswer) (name : DevName) (_minor : Int) :
    Except Fatal Int :=
  let fd := (os name).open_fd
  if fd = -1 then .error (.cant_open name)
  else if (os name).fstat_rc ≠ 0 then .error (.stat_failed name)
  else if !cfg.sparc_linux && !(os name).is_chr then .error .invalid_device
  else .ok fd

/-- The local variables of the loop of `gather_random`: the caller's buffer,
the offset of the pointer `buffer` from its start, `length` and `warn`. -/
structure LoopState where
  buffer : List byte
  off : Nat
  length : Nat
  warn : Bool
  deriving DecidableEq, Repr

/-- Storing `data` into the buffer at offset `off`. -/
def write_at (buf : List byte) (off : Nat) (data : List byte) : List byte :=
  buf.take off ++ data ++ buf.drop (off + data.length)

/-- How the inner `do ... while( n == -1 && errno == EINTR )` ends. -/
inductive ReadLoopRes where
  | done (n : Nat) (buffer : List byte) (rest : List ReadRes)
  | failed (errno : Int)
  | starved
  deriving DecidableEq, Repr

/-- Lines 127-133.  The inner read loop: `read` stores at most `length` bytes,
a count above `length` is logged and replaced by `length`, a failure with
EINTR repeats the read.  `failed` is `n == -1` after the loop. -/
def read_loop (fd : Int) (buf : List byte) (off length : Nat) :
    List ReadRes → List Event × ReadLoopRes
  | [] => ([], .starved)
  | .ok data :: rest =>
      let n := data.length
      let buf1 := write_at buf off (data.take length)
      if n > length then
        ([.read fd off length (.ok data), .bogus n], .done length buf1 rest)
      else
        ([.read fd off length (.ok data)], .done n buf1 rest)
  | .err e :: rest =>
      if e = EINTR then
        let r := read_loop fd buf off length rest
        (.read fd off length (.err e) :: r.1, r.2)
      else
        ([.read fd off length (.err e)], .failed e)

/-- How one pass through the body of the outer loop ends: at the loop
condition `while( length )` (also through `continue`), or not at all. -/
inductive BodyRes where
  | cond (st : LoopState) (reads : List ReadRes)
  | stop (s : Stop)
  deriving DecidableEq, Repr

/-- Lines 105-138.  One pass through the body of the outer loop, `rc` being
the value `select` returns. -/
def loop_body (fd : Int) (rc : Int) (reads : List ReadRes) (st : LoopState) :
    List Event × BodyRes :=
  if rc = 0 then
    (.select fd rc :: (if st.warn then [] else [.notice st.length]),
      .cond { st with warn := true } reads)
  else if rc = -1 then
    ([.select fd rc, .select_error], .cond st reads)
  else
    match read_loop fd st.buffer st.off st.length reads with
    | (evs, .starved) => (.select fd rc :: evs, .stop .blocked)
    | (evs, .failed e) => (.select fd rc :: evs, .stop (.fatal (.read_error e)))
    | (evs, .done n buf1 rest) =>
        if n ≤ st.length then
          (.select fd rc :: evs,
            .cond { st with buffer := buf1, off := st.off + n, length := st.length - n } rest)
        else
          (.select fd rc :: evs, .stop .assert_failed)

/-- The end of the outer loop: `stop = none` when the loop condition became
false, the last state of the local variables, and the trace. -/
structure LoopResult where
  stop : Option Stop
  st : LoopState
  trace : List Event
  deriving DecidableEq, Repr

/-- Lines 104-139.  The outer `do ... while( length )`: the body runs before
the condition is looked at. -/
def gather_loop (fd : Int) : List Int → List ReadRes → LoopState → LoopResult
  | [], _, st => ⟨some .blocked, st, []⟩
  | rc :: sels, reads, st =>
      match loop_body fd rc reads st with
      | (evs, .stop s) => ⟨some s, st, evs⟩
      | (evs, .cond st1 reads1) =>
          if st1.length ≠ 0 then
            let r := gather_loop fd sels reads1 st1
            ⟨r.stop, r.st, evs ++ r.trace⟩
          else
            ⟨none, st1, evs⟩

/-- The static variables `fd_urandom` and `fd_random`. -/
structure Statics where
  fd_urandom : Int
  fd_random : Int
  deriving DecidableEq, Repr

/-- The initial values of the static variables. -/
def Statics.init : Statics := ⟨-1, -1⟩

/-- How a call ends for its caller: the returned value and the caller's
buffer, or no return. -/
inductive Outcome where
  | returned (ret : Int) (buffer : List byte)
  | stopped (s : Stop)
  deriving DecidableEq, Repr

/-- A finished call: outcome, static variables afterwards, trace. -/
structure CallResult where
  outcome : Outcome
  statics : Statics
  trace : List Event
  deriving DecidableEq, Repr

/-- Lines 90-91 and 104-141.  With `fd` chosen: `warn=0`, `length = *r_length`,
the loop, `return 100`. -/
def gather_with (env : Env) (s : Statics) (fd : Int) (pre : List Event)
    (buffer : List byte) (r_length : Nat) : CallResult :=
  let r := gather_loop fd env.selects env.reads ⟨buffer, 0, r_length, false⟩
  match r.stop with
  | none => ⟨.returned 100 r.st.buffer, s, pre ++ r.trace⟩
  | some x => ⟨.stopped x, s, pre ++ r.trace⟩

/-- Lines 83-142.  `gather_random( buffer, r_length, level )`. -/
def gather_random (cfg : Config) (env : Env) (s : Statics) (buffer : List byte)
    (r_length : Nat) (level : Int) : CallResult :=
  if level ≥ 2 then
    if s.fd_random = -1 then
      match open_device cfg env.os .NAME_OF_DEV_RANDOM 8 with
      | .error f => ⟨.stopped (.fatal f), s, [.open_device .NAME_OF_DEV_RANDOM 8]⟩
      | .ok fd =>
          gather_with env { s with fd_random := fd } fd [.open_device .NAME_OF_DEV_RANDOM 8]
            buffer r_length
    else
      gather_with env s s.fd_random [] buffer r_length
  else
    if s.fd_urandom = -1 then
      match open_device cfg env.os .NAME_OF_DEV_URANDOM 9 with
      | .error f => ⟨.stopped (.fatal f), s, [.open_device .NAME_OF_DEV_URANDOM 9]⟩
      | .ok fd =>
          gather_with env { s with fd_urandom := fd } fd [.open_device .NAME_OF_DEV_URANDOM 9]
            buffer r_length
    else
      gather_with env s s.fd_urandom [] buffer r_length

/-! ## The extension table (lines 151-200) -/

/-- The functions the table can point to. -/
inductive Func where
  | gather_random
  deriving DecidableEq, Repr

/-- One entry of `func_table`; `cls` is the field `class`. -/
structure FuncEntry where
  cls : Int
  version : Int
  func : Func
  deriving DecidableEq, Repr

/-- Lines 151-157. -/
def func_table : List FuncEntry := [⟨40, 1, .gather_random⟩]

/-- What `gnupgext_enum_func` leaves behind: the returned pointer (`none` is
NULL) and the values of `*sequence`, `*class` and `*vers`. -/
structure EnumResult where
  ret : Option Func
  sequence : Int
  cls : Int
  vers : Int
  deriving DecidableEq, Repr

/-- Lines 188-199.  The loop of `gnupgext_enum_func` over a table `tbl`, `DIM(tbl)`
being its number of entries; `sequence` is the value `*sequence` had at entry. -/
def enum_loop (tbl : List FuncEntry) (what sequence : Int) (i cls vers : Int) : EnumResult :=
  if h : i ≥ tbl.length ∨ i < 0 then
    ⟨none, sequence, cls, vers⟩
  else
    let e := tbl.get ⟨i.toNat, by omega⟩
    if what ≠ 0 ∧ what ≠ e.cls then
      enum_loop tbl what sequence (i + 1) e.cls e.version
    else
      ⟨some e.func, i + 1, e.cls, e.version⟩
termination_by (tbl.length - i).toNat
decreasing_by omega

/-- Lines 182-200.  `gnupgext_enum_func( what, sequence, class, vers )`. -/
def gnupgext_enum_func (what sequence cls vers : Int) : EnumResult :=
  enum_loop func_table what sequence sequence cls vers

/-! ## What the operator sees (lines 50-55) -/

/-- The two format strings `gather_random` passes to `tty_printf`. -/
inductive Msg where
  | not_enough
  | select_error
  deriving DecidableEq, Repr

/-- Modelled from the spec: what the operator sees of a call of `tty_printf`.
The `tty_printf` of ttyio, defined outside this file, prints the message with
the number it was given, if any (`tty`); the stub of this file hands the
format string alone to `g10_log_info` (`log_info`). -/
inductive Output where
  | tty (fmt : Msg) (arg : Option Nat)
  | log_info (fmt : Msg)
  deriving DecidableEq, Repr

/-- Lines 50-55.  `tty_printf( fmt, ... )`: in a module build the stub of this
file, which logs "tty_printf not available" with the format string and drops
the arguments; otherwise the function of ttyio, which prints the message. -/
def tty_printf (cfg : Config) (fmt : Msg) (arg : Option Nat) : Output :=
  if cfg.is_module then .log_info fmt else .tty fmt arg

/-- What an event shows to the operator through `tty_printf`, if anything. -/
def Event.shown (cfg : Config) : Event → Option Output
  | .notice need => some (tty_printf cfg .not_enough (some need))
  | .select_error => some (tty_printf cfg .select_error none)
  | _ => none

/-! ## Reading traces and environments -/

/-- A `select` that returned 0. -/
def Event.is_timeout : Event → Bool
  | .select _ rc => decide (rc = 0)
  | _ => false

/-- The notice "Not enough random bytes available". -/
def Event.is_notice : Event → Bool
  | .notice _ => true
  | _ => false

/-- A call of `select`. -/
def Event.is_select : Event → Bool
  | .select _ _ => true
  | _ => false

/-- A call of `read`. -/
def Event.is_read : Event → Bool
  | .read _ _ _ _ => true
  | _ => false

/-- A call of `read` that returned a count. -/
def Event.is_ok_read : Event → Bool
  | .read _ _ _ (.ok _) => true
  | _ => false

/-- A call of `read` that failed with an errno other than EINTR. -/
def Event.is_fatal_read : Event → Bool
  | .read _ _ _ (.err e) => decide (e ≠ EINTR)
  | _ => false

/-- A call of `open_device`. -/
def Event.is_open : Event → Bool
  | .open_device _ _ => true
  | _ => false

/-- A call of `open_device` for the path `name`. -/
def Event.opens (name : DevName) : Event → Bool
  | .open_device n _ => decide (n = name)
  | _ => false

/-- Every `select` and `read` of the event is on the descriptor `fd`. -/
def Event.on_fd (fd : Int) : Event → Bool
  | .select f _ => decide (f = fd)
  | .read f _ _ _ => decide (f = fd)
  | _ => true

/-- The number of bytes the event adds to the buffer. -/
def Event.applied : Event → Nat
  | .read _ _ count (.ok data) => min data.length count
  | _ => 0

/-- The number of bytes a trace adds to the buffer. -/
def applied (tr : List Event) : Nat := (tr.map Event.applied).sum

/-- A value of `select` after which the code reads. -/
def ready (rc : Int) : Bool := decide (rc ≠ 0) && decide (rc ≠ -1)

/-- The chunks of the reads that returned a count, in order. -/
def chunks (reads : List ReadRes) : List (List byte) :=
  reads.filterMap fun r => match r with
    | .ok data => some data
    | .err _ => none

/-- The bytes the device delivers to a call: one chunk for each `select`
that reports it readable. -/
def delivered (selects : List Int) (reads : List ReadRes) : List byte :=
  ((chunks reads).take (selects.countP ready)).flatten

/-- A read that fails with an errno other than EINTR. -/
def ReadRes.is_fatal : ReadRes → Bool
  | .err e => decide (e ≠ EINTR)
  | .ok _ => false

/-- A read that fails with EINTR. -/
def ReadRes.is_eintr : ReadRes → Bool
  | .err e => decide (e = EINTR)
  | .ok _ => false

/-- The device path a level selects. -/
def selected (level : Int) : DevName :=
  if level ≥ 2 then .NAME_OF_DEV_RANDOM else .NAME_OF_DEV_URANDOM

/-- The static variable that belongs to a device path. -/
def Statics.handle (s : Statics) : DevName → Int
  | .NAME_OF_DEV_RANDOM => s.fd_random
  | .NAME_OF_DEV_URANDOM => s.fd_urandom

/-- The call has to open its device and `open` fails, `fstat` fails, or the
character-device check, where it is compiled in, fails. -/
def acquisition_fails (cfg : Config) (env : Env) (s : Statics) (level : Int) : Prop :=
  s.handle (selected level) = -1 ∧
    ((env.os (selected level)).open_fd = -1 ∨ (env.os (selected level)).fstat_rc ≠ 0 ∨
      (cfg.sparc_linux = false ∧ (env.os (selected level)).is_chr = false))

/-- The acquisition failure without the platform exception: the call has to
open its device and `open` fails, `fstat` fails, or the file is not a
character-special device. -/
def acquisition_fails_stated (env : Env) (s : Statics) (level : Int) : Prop :=
  s.handle (selected level) = -1 ∧
    ((env.os (selected level)).open_fd = -1 ∨ (env.os (selected level)).fstat_rc ≠ 0 ∨
      (env.os (selected level)).is_chr = false)

/-- The environment with all failed waits and all EINTR reads removed. -/
def Env.without_retries (env : Env) : Env :=
  { env with
    selects := env.selects.filter (fun rc => decide (rc ≠ -1))
    reads := env.reads.filter (fun r => !r.is_eintr) }

/-- One call of `gather_random` made by the process. -/
structure Call where
  env : Env
  buffer : List byte
  r_length : Nat
  level : Int

/-- The trace of a process that makes the given calls one after the other; a
call that does not return is the last one. -/
def process_trace (cfg : Config) : Statics → List Call → List Event
  | _, [] => []
  | s, c :: cs =>
      let r := gather_random cfg c.env s c.buffer c.r_length c.level
      match r.outcome with
      | .returned _ _ => r.trace ++ process_trace cfg r.statics cs
      | .stopped _ => r.trace

/-- The events of a pass in which `select` returns 0. -/
def timeout_events (fd : Int) (st : LoopState) : List Event :=
  .select fd 0 :: (if st.warn then [] else [.notice st.length])

/-- The local variables after `buffer += n; length -= n`, the buffer holding `buf1`. -/
def LoopState.advance (st : LoopState) (n : Nat) (buf1 : List byte) : LoopState :=
  { st with buffer := buf1, off := st.off + n, length := st.length - n }

/-- The events of `k` reads that fail with EINTR. -/
def eintr_events (fd : Int) (off len k : Nat) : List Event :=
  List.replicate k (.read fd off len (.err EINTR))

/-- The events of a read that returns `data`. -/
def ok_events (fd : Int) (off len : Nat) (data : List byte) : List Event :=
  .read fd off len (.ok data) :: (if data.length > len then [.bogus data.length] else [])

/-- Every `read` of the trace is made at the offset `o` plus the bytes the
events before it added to the buffer. -/
def offsets_ok : Nat → List Event → Prop
  | _, [] => True
  | o, e :: t => (∀ f o1 c res, e = .read f o1 c res → o1 = o) ∧ offsets_ok (o + e.applied) t

/-- The result of the inner read loop with the EINTR reads removed from the
answers that are left over. -/
def ReadLoopRes.without_eintr : ReadLoopRes → ReadLoopRes
  | .done n buf1 rest => .done n buf1 (rest.filter (fun r => !r.is_eintr))
  | .failed e => .failed e
  | .starved => .starved

/-- The chunks returned by the reads of a trace, in order. -/
def trace_chunks (tr : List Event) : List (List byte) :=
  tr.filterMap fun e => match e with
    | .read _ _ _ (.ok data) => some data
    | _ => none

/-! ## The loops, pass by pass -/

/-- The inner read loop never reports more than was asked for. -/
theorem read_loop_done_le (fd : Int) (buf : List byte) (off len : Nat) (reads : List ReadRes)
    (n : Nat) (buf1 : List byte) (rest : List ReadRes)
    (h : (read_loop fd buf off len reads).2 = .done n buf1 rest) : n ≤ len := by
  induction reads with
  | nil => simp [read_loop] at h
  | cons r rs ih =>
    cases r with
    | ok data =>
      simp only [read_loop] at h
      split at h
      · simp at h; omega
      · simp at h; omega
    | err e =>
      simp only [read_loop] at h
      split at h
      · exact ih h
      · simp at h

/-- Case analysis and induction along the passes of the outer loop. -/
theorem gather_loop_cases (fd : Int)
    (P : List Int → List ReadRes → LoopState → LoopResult → Prop)
    (h_nil : ∀ reads st, P [] reads st ⟨some .blocked, st, []⟩)
    (h_timeout_more : ∀ sels reads st, st.length ≠ 0 →
      P sels reads { st with warn := true } (gather_loop fd sels reads { st with warn := true }) →
      P (0 :: sels) reads st
        ⟨(gather_loop fd sels reads { st with warn := true }).stop,
         (gather_loop fd sels reads { st with warn := true }).st,
         timeout_events fd st ++ (gather_loop fd sels reads { st with warn := true }).trace⟩)
    (h_timeout_end : ∀ sels reads st, st.length = 0 →
      P (0 :: sels) reads st ⟨none, { st with warn := true }, timeout_events fd st⟩)
    (h_fail_more : ∀ sels reads st, st.length ≠ 0 →
      P sels reads st (gather_loop fd sels reads st) →
      P (-1 :: sels) reads st
        ⟨(gather_loop fd sels reads st).stop, (gather_loop fd sels reads st).st,
         [.select fd (-1), .select_error] ++ (gather_loop fd sels reads st).trace⟩)
    (h_fail_end : ∀ sels reads st, st.length = 0 →
      P (-1 :: sels) reads st ⟨none, st, [.select fd (-1), .select_error]⟩)
    (h_starved : ∀ rc sels reads st evs, rc ≠ 0 → rc ≠ -1 →
      read_loop fd st.buffer st.off st.length reads = (evs, .starved) →
      P (rc :: sels) reads st ⟨some .blocked, st, .select fd rc :: evs⟩)
    (h_failed : ∀ rc sels reads st evs e, rc ≠ 0 → rc ≠ -1 →
      read_loop fd st.buffer st.off st.length reads = (evs, .failed e) →
      P (rc :: sels) reads st ⟨some (.fatal (.read_error e)), st, .select fd rc :: evs⟩)
    (h_done_more : ∀ rc sels reads st evs n buf1 rest, rc ≠ 0 → rc ≠ -1 →
      read_loop fd st.buffer st.off st.length reads = (evs, .done n buf1 rest) →
      n ≤ st.length → st.length - n ≠ 0 →
      P sels rest (st.advance n buf1) (gather_loop fd sels rest (st.advance n buf1)) →
      P (rc :: sels) reads st
        ⟨(gather_loop fd sels rest (st.advance n buf1)).stop,
         (gather_loop fd sels rest (st.advance n buf1)).st,
         (.select fd rc :: evs) ++ (gather_loop fd sels rest (st.advance n buf1)).trace⟩)
    (h_done_end : ∀ rc sels reads st evs n buf1 rest, rc ≠ 0 → rc ≠ -1 →
      read_loop fd st.buffer st.off st.length reads = (evs, .done n buf1 rest) →
      n ≤ st.length → st.length - n = 0 →
      P (rc :: sels) reads st ⟨none, st.advance n buf1, .select fd rc :: evs⟩)
    (sels : List Int) (reads : List ReadRes) (st : LoopState) :
    P sels reads st (gather_loop fd sels reads st) := by
  induction sels generalizing reads st with
  | nil => exact h_nil reads st
  | cons rc sels ih =>
    by_cases h0 : rc = 0
    · subst h0
      by_cases hl : st.length = 0
      · have := h_timeout_end sels reads st hl
        simpa [gather_loop, loop_body, hl, timeout_events] using this
      · have := h_timeout_more sels reads st hl (ih _ _)
        simpa [gather_loop, loop_body, hl, timeout_events] using this
    · by_cases h1 : rc = -1
      · subst h1
        by_cases hl : st.length = 0
        · have := h_fail_end sels reads st hl
          simpa [gather_loop, loop_body, hl] using this
        · have := h_fail_more sels reads st hl (ih _ _)
          simpa [gather_loop, loop_body, hl] using this
      · rcases hr : read_loop fd st.buffer st.off st.length reads with ⟨evs, res⟩
        cases res with
        | starved =>
          have := h_starved rc sels reads st evs h0 h1 hr
          simpa [gather_loop, loop_body, h0, h1, hr] using this
        | failed e =>
          have := h_failed rc sels reads st evs e h0 h1 hr
          simpa [gather_loop, loop_body, h0, h1, hr] using this
        | done n buf1 rest =>
          have hn : n ≤ st.length :=
            read_loop_done_le fd st.buffer st.off st.length reads n buf1 rest (by rw [hr])
          by_cases hl : st.length - n = 0
          · have := h_done_end rc sels reads st evs n buf1 rest h0 h1 hr hn hl
            simpa [gather_loop, loop_body, h0, h1, hr, hn, hl, LoopState.advance] using this
          · have := h_done_more rc sels reads st evs n buf1 rest h0 h1 hr hn hl (ih _ _)
            simpa [gather_loop, loop_body, h0, h1, hr, hn, hl, LoopState.advance] using this

theorem gather_loop_conserve (fd : Int) (sels : List Int) (reads : List ReadRes) (st : LoopState) :
    (gather_loop fd sels reads st).st.off + (gather_loop fd sels reads st).st.length
        = st.off + st.length ∧
      (gather_loop fd sels reads st).stop ≠ some .assert_failed ∧
      ((gather_loop fd sels reads st).stop = none → (gather_loop fd sels reads st).st.length = 0) := by
  refine gather_loop_cases fd
    (fun _ _ st r => r.st.off + r.st.length = st.off + st.length ∧
      r.stop ≠ some .assert_failed ∧ (r.stop = none → r.st.length = 0)) ?_ ?_ ?_ ?_ ?_ ?_ ?_ ?_ ?_
    sels reads st
  all_goals intros
  all_goals simp_all [LoopState.advance]
  all_goals omega

/-- The shape of every run of the inner read loop: some reads fail with
EINTR, then the answers run out, or a read fails otherwise, or a read returns
a chunk. -/
theorem read_loop_shape (fd : Int) (buf : List byte) (off len : Nat) (reads : List ReadRes) :
    ∃ k : Nat,
      (reads = List.replicate k (.err EINTR) ∧
        read_loop fd buf off len reads = (eintr_events fd off len k, .starved)) ∨
      (∃ e rest, e ≠ EINTR ∧ reads = List.replicate k (.err EINTR) ++ .err e :: rest ∧
        read_loop fd buf off len reads =
          (eintr_events fd off len k ++ [.read fd off len (.err e)], .failed e)) ∨
      (∃ data rest, reads = List.replicate k (.err EINTR) ++ .ok data :: rest ∧
        read_loop fd buf off len reads =
          (eintr_events fd off len k ++ ok_events fd off len data,
            .done (min data.length len) (write_at buf off (data.take len)) rest)) := by
  induction reads with
  | nil => exact ⟨0, Or.inl (by simp [read_loop, eintr_events])⟩
  | cons r rs ih =>
    cases r with
    | ok data =>
      refine ⟨0, Or.inr (Or.inr ⟨data, rs, by simp, ?_⟩)⟩
      by_cases h : data.length > len
      · simp [read_loop, eintr_events, ok_events, h]; omega
      · simp [read_loop, eintr_events, ok_events, h]; omega
    | err e =>
      by_cases he : e = EINTR
      · subst he
        obtain ⟨k, hk⟩ := ih
        refine ⟨k + 1, ?_⟩
        rcases hk with ⟨h1, h2⟩ | ⟨e, rest, h0, h1, h2⟩ | ⟨data, rest, h1, h2⟩
        · left
          refine ⟨by simp [h1, List.replicate_succ], ?_⟩
          simp [read_loop, h2, eintr_events, List.replicate_succ]
        · right; left
          refine ⟨e, rest, h0, by simp [h1, List.replicate_succ], ?_⟩
          simp [read_loop, h2, eintr_events, List.replicate_succ]
        · right; right
          refine ⟨data, rest, by simp [h1, List.replicate_succ], ?_⟩
          simp [read_loop, h2, eintr_events, List.replicate_succ]
      · refine ⟨0, Or.inr (Or.inl ⟨e, rs, he, by simp, ?_⟩)⟩
        simp [read_loop, he, eintr_events]

/-- The three ways `gather_random` begins: the handle is stored already; it
is not and `open_device` fails; it is not and `open_device` delivers one. -/
theorem gather_random_cases (cfg : Config) (env : Env) (s : Statics) (buffer : List byte)
    (r_length : Nat) (level : Int) :
    (s.handle (selected level) ≠ -1 ∧
      gather_random cfg env s buffer r_length level
        = gather_with env s (s.handle (selected level)) [] buffer r_length) ∨
    (s.handle (selected level) = -1 ∧ acquisition_fails cfg env s level ∧
      ∃ f minor, gather_random cfg env s buffer r_length level
        = ⟨.stopped (.fatal f), s, [.open_device (selected level) minor]⟩) ∨
    (s.handle (selected level) = -1 ∧ ¬ acquisition_fails cfg env s level ∧
      ∃ s1 minor, s1.handle (selected level) = (env.os (selected level)).open_fd ∧
        (env.os (selected level)).open_fd ≠ -1 ∧
        (∀ name, name ≠ selected level → s1.handle name = s.handle name) ∧
        gather_random cfg env s buffer r_length level
          = gather_with env s1 (s1.handle (selected level))
              [.open_device (selected level) minor] buffer r_length) := by
  by_cases hl : level ≥ 2
  · by_cases hs : s.fd_random = -1
    · by_cases h1 : (env.os .NAME_OF_DEV_RANDOM).open_fd = -1
      · right; left
        simp [selected, hl, Statics.handle, hs, acquisition_fails, h1, gather_random, open_device]
      · by_cases h2 : (env.os .NAME_OF_DEV_RANDOM).fstat_rc = 0
        · by_cases h3 : cfg.sparc_linux = false ∧ (env.os .NAME_OF_DEV_RANDOM).is_chr = false
          · right; left
            simp [selected, hl, Statics.handle, hs, acquisition_fails, h1, h2, h3, gather_random,
              open_device]
          · right; right
            refine ⟨by simp [selected, hl, Statics.handle, hs], ?_, ?_⟩
            · simp [selected, hl, acquisition_fails, h1, h2]
              intro _
              simpa using h3
            · refine ⟨{ s with fd_random := (env.os .NAME_OF_DEV_RANDOM).open_fd }, 8, ?_⟩
              have h3' : (!cfg.sparc_linux && !(env.os .NAME_OF_DEV_RANDOM).is_chr) = false := by
                revert h3; cases cfg.sparc_linux <;> cases (env.os .NAME_OF_DEV_RANDOM).is_chr <;> simp
              refine ⟨by simp [selected, hl, Statics.handle], by simpa [selected, hl] using h1, ?_, ?_⟩
              · intro name hn
                have hsel : selected level = .NAME_OF_DEV_RANDOM := by simp [selected, hl]
                rw [hsel] at hn
                cases name <;> simp_all [Statics.handle]
              · simp [selected, hl, Statics.handle, hs, h1, h2, h3', gather_random, open_device]
        · right; left
          simp [selected, hl, Statics.handle, hs, acquisition_fails, h1, h2, gather_random,
              open_device]
    · left
      simp [selected, hl, Statics.handle, hs, gather_random]
  · by_cases hs : s.fd_urandom = -1
    · by_cases h1 : (env.os .NAME_OF_DEV_URANDOM).open_fd = -1
      · right; left
        simp [selected, hl, Statics.handle, hs, acquisition_fails, h1, gather_random, open_device]
      · by_cases h2 : (env.os .NAME_OF_DEV_URANDOM).fstat_rc = 0
        · by_cases h3 : cfg.sparc_linux = false ∧ (env.os .NAME_OF_DEV_URANDOM).is_chr = false
          · right; left
            simp [selected, hl, Statics.handle, hs, acquisition_fails, h1, h2, h3, gather_random,
              open_device]
          · right; right
            refine ⟨by simp [selected, hl, Statics.handle, hs], ?_, ?_⟩
            · simp [selected, hl, acquisition_fails, h1, h2]
              intro _
              simpa using h3
            · refine ⟨{ s with fd_urandom := (env.os .NAME_OF_DEV_URANDOM).open_fd }, 9, ?_⟩
              have h3' : (!cfg.sparc_linux && !(env.os .NAME_OF_DEV_URANDOM).is_chr) = false := by
                revert h3; cases cfg.sparc_linux <;> cases (env.os .NAME_OF_DEV_URANDOM).is_chr <;> simp
              refine ⟨by simp [selected, hl, Statics.handle], by simpa [selected, hl] using h1, ?_, ?_⟩
              · intro name hn
                have hsel : selected level = .NAME_OF_DEV_URANDOM := by simp [selected, hl]
                rw [hsel] at hn
                cases name <;> simp_all [Statics.handle]
              · simp [selected, hl, Statics.handle, hs, h1, h2, h3', gather_random, open_device]
        · right; left
          simp [selected, hl, Statics.handle, hs, acquisition_fails, h1, h2, gather_random,
              open_device]
    · left
      simp [selected, hl, Statics.handle, hs, gather_random]

theorem read_loop_starved_inv {fd : Int} {buf : List byte} {off len : Nat}
    {reads : List ReadRes} {evs : List Event}
    (h : read_loop fd buf off len reads = (evs, .starved)) :
    ∃ k, reads = List.replicate k (.err EINTR) ∧ evs = eintr_events fd off len k := by
  obtain ⟨k, hk⟩ := read_loop_shape fd buf off len reads
  rcases hk with ⟨h1, h2⟩ | ⟨e, rest, _, _, h2⟩ | ⟨data, rest, _, h2⟩
  · rw [h] at h2
    exact ⟨k, h1, by simpa using h2⟩
  · rw [h] at h2; simp at h2
  · rw [h] at h2; simp at h2

theorem read_loop_failed_inv {fd : Int} {buf : List byte} {off len : Nat}
    {reads : List ReadRes} {evs : List Event} {e : Int}
    (h : read_loop fd buf off len reads = (evs, .failed e)) :
    ∃ k rest, e ≠ EINTR ∧ reads = List.replicate k (.err EINTR) ++ .err e :: rest ∧
      evs = eintr_events fd off len k ++ [.read fd off len (.err e)] := by
  obtain ⟨k, hk⟩ := read_loop_shape fd buf off len reads
  rcases hk with ⟨_, h2⟩ | ⟨e1, rest, h0, h1, h2⟩ | ⟨data, rest, _, h2⟩
  · rw [h] at h2; simp at h2
  · rw [h] at h2
    simp only [Prod.mk.injEq, ReadLoopRes.failed.injEq] at h2
    obtain ⟨h3, h4⟩ := h2
    subst h4
    exact ⟨k, rest, h0, h1, h3⟩
  · rw [h] at h2; simp at h2

theorem read_loop_done_inv {fd : Int} {buf : List byte} {off len : Nat}
    {reads : List ReadRes} {evs : List Event} {n : Nat} {buf1 : List byte} {rest : List ReadRes}
    (h : read_loop fd buf off len reads = (evs, .done n buf1 rest)) :
    ∃ k data, reads = List.replicate k (.err EINTR) ++ .ok data :: rest ∧
      evs = eintr_events fd off len k ++ ok_events fd off len data ∧
      n = min data.length len ∧ buf1 = write_at buf off (data.take len) := by
  obtain ⟨k, hk⟩ := read_loop_shape fd buf off len reads
  rcases hk with ⟨_, h2⟩ | ⟨e1, rest1, _, _, h2⟩ | ⟨data, rest1, h1, h2⟩
  · rw [h] at h2; simp at h2
  · rw [h] at h2; simp at h2
  · rw [h] at h2
    simp only [Prod.mk.injEq, ReadLoopRes.done.injEq] at h2
    obtain ⟨h3, h4, h5, h6⟩ := h2
    subst h6
    exact ⟨k, data, h1, h3, h4, h5⟩

theorem mem_eintr_events {fd : Int} {off len k : Nat} {e : Event}
    (h : e ∈ eintr_events fd off len k) : e = .read fd off len (.err EINTR) := by
  simp [eintr_events, List.mem_replicate] at h
  exact h.2

theorem mem_ok_events {fd : Int} {off len : Nat} {data : List byte} {e : Event}
    (h : e ∈ ok_events fd off len data) :
    e = .read fd off len (.ok data) ∨ e = .bogus data.length := by
  simp only [ok_events, List.mem_cons] at h
  rcases h with h | h
  · exact Or.inl h
  · split at h
    · simp at h; exact Or.inr h
    · simp at h

theorem mem_timeout_events {fd : Int} {st : LoopState} {e : Event}
    (h : e ∈ timeout_events fd st) : e = .select fd 0 ∨ e = .notice st.length := by
  simp only [timeout_events, List.mem_cons] at h
  rcases h with h | h
  · exact Or.inl h
  · split at h
    · simp at h
    · simp at h; exact Or.inr h

theorem applied_append (a b : List Event) : applied (a ++ b) = applied a + applied b := by
  simp [applied]

theorem applied_cons (e : Event) (t : List Event) : applied (e :: t) = e.applied + applied t := by
  simp [applied]

theorem applied_eintr_events (fd : Int) (off len k : Nat) :
    applied (eintr_events fd off len k) = 0 := by
  induction k with
  | zero => simp [applied, eintr_events]
  | succ k ih =>
    simp only [eintr_events, List.replicate_succ] at ih ⊢
    rw [applied_cons, ih]
    simp [Event.applied]

theorem applied_ok_events (fd : Int) (off len : Nat) (data : List byte) :
    applied (ok_events fd off len data) = min data.length len := by
  simp only [ok_events]
  split <;> simp [applied, Event.applied]

theorem applied_timeout_events (fd : Int) (st : LoopState) :
    applied (timeout_events fd st) = 0 := by
  simp only [timeout_events]
  split <;> simp [applied, Event.applied]

/-- Every `select` and `read` of the loop is on the descriptor the loop was
given, and the loop opens nothing. -/
theorem gather_loop_on_fd (fd : Int) (sels : List Int) (reads : List ReadRes) (st : LoopState) :
    ∀ e ∈ (gather_loop fd sels reads st).trace, e.on_fd fd = true ∧ e.is_open = false := by
  refine gather_loop_cases fd
    (fun _ _ _ r => ∀ e ∈ r.trace, e.on_fd fd = true ∧ e.is_open = false)
    ?_ ?_ ?_ ?_ ?_ ?_ ?_ ?_ ?_ sels reads st
  · intro _ _ e he; simp at he
  · intro sels reads st _ ih e he
    rcases List.mem_append.1 he with h | h
    · rcases mem_timeout_events h with h | h <;> simp [h, Event.on_fd, Event.is_open]
    · exact ih e h
  · intro sels reads st _ e he
    rcases mem_timeout_events he with h | h <;> simp [h, Event.on_fd, Event.is_open]
  · intro sels reads st _ ih e he
    rcases List.mem_append.1 he with h | h
    · simp at h
      rcases h with h | h <;> simp [h, Event.on_fd, Event.is_open]
    · exact ih e h
  · intro sels reads st _ e he
    simp at he
    rcases he with h | h <;> simp [h, Event.on_fd, Event.is_open]
  · intro rc sels reads st evs _ _ hr e he
    obtain ⟨k, _, hevs⟩ := read_loop_starved_inv hr
    subst hevs
    rcases List.mem_cons.1 he with h | h
    · simp [h, Event.on_fd, Event.is_open]
    · simp [mem_eintr_events h, Event.on_fd, Event.is_open]
  · intro rc sels reads st evs e0 _ _ hr e he
    obtain ⟨k, rest, _, _, hevs⟩ := read_loop_failed_inv hr
    subst hevs
    rcases List.mem_cons.1 he with h | h
    · simp [h, Event.on_fd, Event.is_open]
    · rcases List.mem_append.1 h with h | h
      · simp [mem_eintr_events h, Event.on_fd, Event.is_open]
      · simp at h; simp [h, Event.on_fd, Event.is_open]
  · intro rc sels reads st evs n buf1 rest _ _ hr _ _ ih e he
    obtain ⟨k, data, _, hevs, _, _⟩ := read_loop_done_inv hr
    subst hevs
    rcases List.mem_append.1 he with h | h
    · rcases List.mem_cons.1 h with h | h
      · simp [h, Event.on_fd, Event.is_open]
      · rcases List.mem_append.1 h with h | h
        · simp [mem_eintr_events h, Event.on_fd, Event.is_open]
        · rcases mem_ok_events h with h | h <;> simp [h, Event.on_fd, Event.is_open]
    · exact ih e h
  · intro rc sels reads st evs n buf1 rest _ _ hr _ _ e he
    obtain ⟨k, data, _, hevs, _, _⟩ := read_loop_done_inv hr
    subst hevs
    rcases List.mem_cons.1 he with h | h
    · simp [h, Event.on_fd, Event.is_open]
    · rcases List.mem_append.1 h with h | h
      · simp [mem_eintr_events h, Event.on_fd, Event.is_open]
      · rcases mem_ok_events h with h | h <;> simp [h, Event.on_fd, Event.is_open]

/-- Every `read` of the loop is made at the offset and with the count that
add up to what the loop started with. -/
theorem gather_loop_read_args (fd : Int) (sels : List Int) (reads : List ReadRes)
    (st : LoopState) :
    ∀ e ∈ (gather_loop fd sels reads st).trace, ∀ f o c res, e = .read f o c res →
      o + c = st.off + st.length := by
  refine gather_loop_cases fd
    (fun _ _ st r => ∀ e ∈ r.trace, ∀ f o c res, e = .read f o c res →
      o + c = st.off + st.length)
    ?_ ?_ ?_ ?_ ?_ ?_ ?_ ?_ ?_ sels reads st
  · intro _ _ e he; simp at he
  · intro sels reads st _ ih e he f o c res heq
    rcases List.mem_append.1 he with h | h
    · rcases mem_timeout_events h with h | h <;> simp [h] at heq
    · exact ih e h f o c res heq
  · intro sels reads st _ e he f o c res heq
    rcases mem_timeout_events he with h | h <;> simp [h] at heq
  · intro sels reads st _ ih e he f o c res heq
    rcases List.mem_append.1 he with h | h
    · simp at h
      rcases h with h | h <;> simp [h] at heq
    · exact ih e h f o c res heq
  · intro sels reads st _ e he f o c res heq
    simp at he
    rcases he with h | h <;> simp [h] at heq
  · intro rc sels reads st evs _ _ hr e he f o c res heq
    obtain ⟨k, _, hevs⟩ := read_loop_starved_inv hr
    subst hevs
    rcases List.mem_cons.1 he with h | h
    · simp [h] at heq
    · rw [mem_eintr_events h] at heq
      simp at heq; omega
  · intro rc sels reads st evs e0 _ _ hr e he f o c res heq
    obtain ⟨k, rest, _, _, hevs⟩ := read_loop_failed_inv hr
    subst hevs
    rcases List.mem_cons.1 he with h | h
    · simp [h] at heq
    · rcases List.mem_append.1 h with h | h
      · rw [mem_eintr_events h] at heq
        simp at heq; omega
      · simp at h; rw [h] at heq
        simp at heq; omega
  · intro rc sels reads st evs n buf1 rest _ _ hr hn _ ih e he f o c res heq
    obtain ⟨k, data, _, hevs, _, _⟩ := read_loop_done_inv hr
    subst hevs
    rcases List.mem_append.1 he with h | h
    · rcases List.mem_cons.1 h with h | h
      · simp [h] at heq
      · rcases List.mem_append.1 h with h | h
        · rw [mem_eintr_events h] at heq
          simp at heq; omega
        · rcases mem_ok_events h with h | h
          · rw [h] at heq
            simp at heq; omega
          · simp [h] at heq
    · have := ih e h f o c res heq
      simp only [LoopState.advance] at this
      omega
  · intro rc sels reads st evs n buf1 rest _ _ hr _ _ e he f o c res heq
    obtain ⟨k, data, _, hevs, _, _⟩ := read_loop_done_inv hr
    subst hevs
    rcases List.mem_cons.1 he with h | h
    · simp [h] at heq
    · rcases List.mem_append.1 h with h | h
      · rw [mem_eintr_events h] at heq
        simp at heq; omega
      · rcases mem_ok_events h with h | h
        · rw [h] at heq
          simp at heq; omega
        · simp [h] at heq

/-- The offset of the buffer pointer grows by exactly the bytes the trace
adds to the buffer. -/
theorem gather_loop_applied (fd : Int) (sels : List Int) (reads : List ReadRes)
    (st : LoopState) :
    st.off + applied (gather_loop fd sels reads st).trace = (gather_loop fd sels reads st).st.off := by
  refine gather_loop_cases fd
    (fun _ _ st r => st.off + applied r.trace = r.st.off)
    ?_ ?_ ?_ ?_ ?_ ?_ ?_ ?_ ?_ sels reads st
  · intro _ _; simp [applied]
  · intro sels reads st _ ih
    simp only [applied_append, applied_timeout_events]
    simpa using ih
  · intro sels reads st _
    simp [applied_timeout_events]
  · intro sels reads st _ ih
    simp only [applied_append]
    simpa [applied, Event.applied] using ih
  · intro sels reads st _
    simp [applied, Event.applied]
  · intro rc sels reads st evs _ _ hr
    obtain ⟨k, _, hevs⟩ := read_loop_starved_inv hr
    subst hevs
    simp [applied_cons, applied_eintr_events, Event.applied]
  · intro rc sels reads st evs e0 _ _ hr
    obtain ⟨k, rest, _, _, hevs⟩ := read_loop_failed_inv hr
    subst hevs
    simp [applied_cons, applied_append, applied_eintr_events, Event.applied]
    simp [applied, Event.applied]
  · intro rc sels reads st evs n buf1 rest _ _ hr hn _ ih
    obtain ⟨k, data, _, hevs, hn', _⟩ := read_loop_done_inv hr
    subst hevs
    have hoff : (st.advance n buf1).off = st.off + n := rfl
    rw [hoff] at ih
    simp only [applied_cons, applied_append, applied_eintr_events, applied_ok_events,
      Event.applied]
    omega
  · intro rc sels reads st evs n buf1 rest _ _ hr _ _
    obtain ⟨k, data, _, hevs, hn', _⟩ := read_loop_done_inv hr
    subst hevs
    simp only [applied_cons, applied_append, applied_eintr_events, applied_ok_events,
      Event.applied, LoopState.advance]
    omega

/-- The loop ends fatally exactly when one of its reads failed with an errno
other than EINTR, and then with the message of the read error. -/
theorem gather_loop_fatal_iff (fd : Int) (sels : List Int) (reads : List ReadRes)
    (st : LoopState) :
    ((∃ f, (gather_loop fd sels reads st).stop = some (.fatal f)) ↔
      ∃ e ∈ (gather_loop fd sels reads st).trace, e.is_fatal_read = true) := by
  refine gather_loop_cases fd
    (fun _ _ _ r => ((∃ f, r.stop = some (.fatal f)) ↔ ∃ e ∈ r.trace, e.is_fatal_read = true))
    ?_ ?_ ?_ ?_ ?_ ?_ ?_ ?_ ?_ sels reads st
  · intro _ _; simp
  · intro sels reads st _ ih
    rw [ih]
    constructor
    · rintro ⟨e, he, hf⟩
      exact ⟨e, List.mem_append.2 (Or.inr he), hf⟩
    · rintro ⟨e, he, hf⟩
      rcases List.mem_append.1 he with h | h
      · rcases mem_timeout_events h with h | h <;> simp [h, Event.is_fatal_read] at hf
      · exact ⟨e, h, hf⟩
  · intro sels reads st _
    constructor
    · simp
    · rintro ⟨e, he, hf⟩
      rcases mem_timeout_events he with h | h <;> simp [h, Event.is_fatal_read] at hf
  · intro sels reads st _ ih
    rw [ih]
    constructor
    · rintro ⟨e, he, hf⟩
      exact ⟨e, List.mem_append.2 (Or.inr he), hf⟩
    · rintro ⟨e, he, hf⟩
      rcases List.mem_append.1 he with h | h
      · simp at h
        rcases h with h | h <;> simp [h, Event.is_fatal_read] at hf
      · exact ⟨e, h, hf⟩
  · intro sels reads st _
    simp [Event.is_fatal_read]
  · intro rc sels reads st evs _ _ hr
    obtain ⟨k, _, hevs⟩ := read_loop_starved_inv hr
    subst hevs
    constructor
    · simp
    · rintro ⟨e, he, hf⟩
      rcases List.mem_cons.1 he with h | h
      · simp [h, Event.is_fatal_read] at hf
      · simp [mem_eintr_events h, Event.is_fatal_read] at hf
  · intro rc sels reads st evs e0 _ _ hr
    obtain ⟨k, rest, hne, _, hevs⟩ := read_loop_failed_inv hr
    subst hevs
    constructor
    · intro _
      exact ⟨.read fd st.off st.length (.err e0), by simp, by simp [Event.is_fatal_read, hne]⟩
    · intro _
      exact ⟨_, rfl⟩
  · intro rc sels reads st evs n buf1 rest _ _ hr hn _ ih
    obtain ⟨k, data, _, hevs, _, _⟩ := read_loop_done_inv hr
    subst hevs
    rw [ih]
    constructor
    · rintro ⟨e, he, hf⟩
      exact ⟨e, List.mem_append.2 (Or.inr he), hf⟩
    · rintro ⟨e, he, hf⟩
      rcases List.mem_append.1 he with h | h
      · rcases List.mem_cons.1 h with h | h
        · simp [h, Event.is_fatal_read] at hf
        · rcases List.mem_append.1 h with h | h
          · simp [mem_eintr_events h, Event.is_fatal_read] at hf
          · rcases mem_ok_events h with h | h <;> simp [h, Event.is_fatal_read] at hf
      · exact ⟨e, h, hf⟩
  · intro rc sels reads st evs n buf1 rest _ _ hr _ _
    obtain ⟨k, data, _, hevs, _, _⟩ := read_loop_done_inv hr
    subst hevs
    constructor
    · simp
    · rintro ⟨e, he, hf⟩
      rcases List.mem_cons.1 he with h | h
      · simp [h, Event.is_fatal_read] at hf
      · rcases List.mem_append.1 h with h | h
        · simp [mem_eintr_events h, Event.is_fatal_read] at hf
        · rcases mem_ok_events h with h | h <;> simp [h, Event.is_fatal_read] at hf

theorem offsets_ok_append (o : Nat) (a b : List Event) :
    offsets_ok o (a ++ b) ↔ offsets_ok o a ∧ offsets_ok (o + applied a) b := by
  induction a generalizing o with
  | nil => simp [offsets_ok, applied]
  | cons e t ih =>
    show ((∀ f o1 c res, e = .read f o1 c res → o1 = o) ∧ offsets_ok (o + e.applied) (t ++ b)) ↔
      ((∀ f o1 c res, e = .read f o1 c res → o1 = o) ∧ offsets_ok (o + e.applied) t) ∧
        offsets_ok (o + applied (e :: t)) b
    rw [ih, applied_cons, and_assoc, Nat.add_assoc]

theorem offsets_ok_split {o : Nat} {pre post : List Event} {f : Int} {o1 c : Nat} {res : ReadRes}
    (h : offsets_ok o (pre ++ .read f o1 c res :: post)) : o1 = o + applied pre := by
  rw [offsets_ok_append] at h
  exact h.2.1 f o1 c res rfl

theorem offsets_ok_eintr_events (fd : Int) (off len k : Nat) :
    offsets_ok off (eintr_events fd off len k) := by
  induction k with
  | zero => simp [eintr_events, offsets_ok]
  | succ k ih =>
    simp only [eintr_events, List.replicate_succ, offsets_ok] at ih ⊢
    refine ⟨?_, ?_⟩
    · intro f o1 c res h
      simp at h; omega
    · simpa [Event.applied] using ih

theorem offsets_ok_ok_events (fd : Int) (off len : Nat) (data : List byte) :
    offsets_ok off (ok_events fd off len data) := by
  simp only [ok_events]
  split
  · simp [offsets_ok]
    intro _ _ _ _ h _ _ _; omega
  · simp [offsets_ok]
    intro _ _ _ _ h _ _ _; omega

theorem offsets_ok_timeout_events (fd : Int) (st : LoopState) (o : Nat) :
    offsets_ok o (timeout_events fd st) := by
  simp only [timeout_events]
  split <;> simp [offsets_ok]

/-- The offsets of the reads of the loop follow the bytes added to the buffer. -/
theorem gather_loop_offsets (fd : Int) (sels : List Int) (reads : List ReadRes)
    (st : LoopState) : offsets_ok st.off (gather_loop fd sels reads st).trace := by
  refine gather_loop_cases fd (fun _ _ st r => offsets_ok st.off r.trace)
    ?_ ?_ ?_ ?_ ?_ ?_ ?_ ?_ ?_ sels reads st
  · intro _ _; simp [offsets_ok]
  · intro sels reads st _ ih
    rw [offsets_ok_append, applied_timeout_events]
    exact ⟨offsets_ok_timeout_events fd st _, ih⟩
  · intro sels reads st _
    exact offsets_ok_timeout_events fd st _
  · intro sels reads st _ ih
    rw [offsets_ok_append]
    refine ⟨by simp [offsets_ok], ?_⟩
    simpa [applied, Event.applied] using ih
  · intro sels reads st _
    simp [offsets_ok]
  · intro rc sels reads st evs _ _ hr
    obtain ⟨k, _, hevs⟩ := read_loop_starved_inv hr
    subst hevs
    simp only [offsets_ok]
    exact ⟨by simp, by simpa [Event.applied] using offsets_ok_eintr_events fd st.off st.length k⟩
  · intro rc sels reads st evs e0 _ _ hr
    obtain ⟨k, rest, _, _, hevs⟩ := read_loop_failed_inv hr
    subst hevs
    simp only [offsets_ok]
    refine ⟨by simp, ?_⟩
    simp only [Event.applied, Nat.add_zero]
    rw [offsets_ok_append, applied_eintr_events]
    refine ⟨offsets_ok_eintr_events fd st.off st.length k, ?_⟩
    simp [offsets_ok]
    intro _ _ _ _ _ h _ _; omega
  · intro rc sels reads st evs n buf1 rest _ _ hr hn _ ih
    obtain ⟨k, data, _, hevs, hn', _⟩ := read_loop_done_inv hr
    subst hevs
    subst hn'
    rw [offsets_ok_append]
    refine ⟨?_, ?_⟩
    · simp only [offsets_ok]
      refine ⟨by simp, ?_⟩
      simp only [Event.applied, Nat.add_zero]
      rw [offsets_ok_append, applied_eintr_events]
      exact ⟨offsets_ok_eintr_events fd st.off st.length k,
        offsets_ok_ok_events fd st.off st.length data⟩
    · have hoff : (st.advance (min data.length st.length) buf1).off
          = st.off + min data.length st.length := rfl
      rw [hoff] at ih
      simp only [applied_cons, applied_append, applied_eintr_events, applied_ok_events,
        Event.applied]
      simpa using ih
  · intro rc sels reads st evs n buf1 rest _ _ hr _ _
    obtain ⟨k, data, _, hevs, _, _⟩ := read_loop_done_inv hr
    subst hevs
    simp only [offsets_ok]
    refine ⟨by simp, ?_⟩
    simp only [Event.applied, Nat.add_zero]
    rw [offsets_ok_append, applied_eintr_events]
    exact ⟨offsets_ok_eintr_events fd st.off st.length k,
      offsets_ok_ok_events fd st.off st.length data⟩

/-- Every result of a `read` of the loop is one of the answers of the environment. -/
theorem gather_loop_read_from_script (fd : Int) (sels : List Int) (reads : List ReadRes)
    (st : LoopState) :
    ∀ e ∈ (gather_loop fd sels reads st).trace, ∀ f o c res, e = .read f o c res →
      res ∈ reads := by
  refine gather_loop_cases fd
    (fun _ reads _ r => ∀ e ∈ r.trace, ∀ f o c res, e = .read f o c res → res ∈ reads)
    ?_ ?_ ?_ ?_ ?_ ?_ ?_ ?_ ?_ sels reads st
  · intro _ _ e he; simp at he
  · intro sels reads st _ ih e he f o c res heq
    rcases List.mem_append.1 he with h | h
    · rcases mem_timeout_events h with h | h <;> simp [h] at heq
    · exact ih e h f o c res heq
  · intro sels reads st _ e he f o c res heq
    rcases mem_timeout_events he with h | h <;> simp [h] at heq
  · intro sels reads st _ ih e he f o c res heq
    rcases List.mem_append.1 he with h | h
    · simp at h
      rcases h with h | h <;> simp [h] at heq
    · exact ih e h f o c res heq
  · intro sels reads st _ e he f o c res heq
    simp at he
    rcases he with h | h <;> simp [h] at heq
  · intro rc sels reads st evs _ _ hr e he f o c res heq
    obtain ⟨k, hreads, hevs⟩ := read_loop_starved_inv hr
    subst hevs
    rcases List.mem_cons.1 he with h | h
    · simp [h] at heq
    · rw [mem_eintr_events h] at heq
      simp at heq
      have hk : k ≠ 0 := by
        rintro rfl
        simp [eintr_events] at h
      rw [hreads, ← heq.2.2.2]
      simp [List.mem_replicate, hk]
  · intro rc sels reads st evs e0 _ _ hr e he f o c res heq
    obtain ⟨k, rest, _, hreads, hevs⟩ := read_loop_failed_inv hr
    subst hevs
    rcases List.mem_cons.1 he with h | h
    · simp [h] at heq
    · rcases List.mem_append.1 h with h | h
      · have hk : k ≠ 0 := by
          rintro rfl
          simp [eintr_events] at h
        rw [mem_eintr_events h] at heq
        simp at heq
        rw [hreads, ← heq.2.2.2]
        simp [List.mem_replicate, hk]
      · simp at h; rw [h] at heq
        simp at heq
        rw [hreads, ← heq.2.2.2]
        simp
  · intro rc sels reads st evs n buf1 rest _ _ hr hn _ ih e he f o c res heq
    obtain ⟨k, data, hreads, hevs, _, _⟩ := read_loop_done_inv hr
    subst hevs
    rcases List.mem_append.1 he with h | h
    · rcases List.mem_cons.1 h with h | h
      · simp [h] at heq
      · rcases List.mem_append.1 h with h | h
        · have hk : k ≠ 0 := by
            rintro rfl
            simp [eintr_events] at h
          rw [mem_eintr_events h] at heq
          simp at heq
          rw [hreads, ← heq.2.2.2]
          simp [List.mem_replicate, hk]
        · rcases mem_ok_events h with h | h
          · rw [h] at heq
            simp at heq
            rw [hreads, ← heq.2.2.2]
            simp
          · simp [h] at heq
    · have := ih e h f o c res heq
      rw [hreads]
      simp [this]
  · intro rc sels reads st evs n buf1 rest _ _ hr _ _ e he f o c res heq
    obtain ⟨k, data, hreads, hevs, _, _⟩ := read_loop_done_inv hr
    subst hevs
    rcases List.mem_cons.1 he with h | h
    · simp [h] at heq
    · rcases List.mem_append.1 h with h | h
      · have hk : k ≠ 0 := by
          rintro rfl
          simp [eintr_events] at h
        rw [mem_eintr_events h] at heq
        simp at heq
        rw [hreads, ← heq.2.2.2]
        simp [List.mem_replicate, hk]
      · rcases mem_ok_events h with h | h
        · rw [h] at heq
          simp at heq
          rw [hreads, ← heq.2.2.2]
          simp
        · simp [h] at heq

theorem gather_with_trace (env : Env) (s : Statics) (fd : Int) (pre : List Event)
    (buffer : List byte) (r_length : Nat) :
    (gather_with env s fd pre buffer r_length).trace
      = pre ++ (gather_loop fd env.selects env.reads ⟨buffer, 0, r_length, false⟩).trace := by
  cases h : (gather_loop fd env.selects env.reads ⟨buffer, 0, r_length, false⟩).stop <;>
    simp [gather_with, h]

theorem gather_with_statics (env : Env) (s : Statics) (fd : Int) (pre : List Event)
    (buffer : List byte) (r_length : Nat) :
    (gather_with env s fd pre buffer r_length).statics = s := by
  cases h : (gather_loop fd env.selects env.reads ⟨buffer, 0, r_length, false⟩).stop <;>
    simp [gather_with, h]

theorem gather_with_outcome (env : Env) (s : Statics) (fd : Int) (pre : List Event)
    (buffer : List byte) (r_length : Nat) :
    (gather_with env s fd pre buffer r_length).outcome
      = match (gather_loop fd env.selects env.reads ⟨buffer, 0, r_length, false⟩).stop with
        | none => .returned 100
            (gather_loop fd env.selects env.reads ⟨buffer, 0, r_length, false⟩).st.buffer
        | some x => .stopped x := by
  cases h : (gather_loop fd env.selects env.reads ⟨buffer, 0, r_length, false⟩).stop <;>
    simp [gather_with, h]

theorem offsets_ok_gather_with (env : Env) (s : Statics) (fd : Int) (minor : Int) (name : DevName)
    (buffer : List byte) (L : Nat) (pre : List Event)
    (hpre : pre = [] ∨ pre = [.open_device name minor]) :
    offsets_ok 0 (gather_with env s fd pre buffer L).trace ∧
      applied (gather_with env s fd pre buffer L).trace
        = applied (gather_loop fd env.selects env.reads ⟨buffer, 0, L, false⟩).trace := by
  rw [gather_with_trace, offsets_ok_append, applied_append]
  have h := gather_loop_offsets fd env.selects env.reads ⟨buffer, 0, L, false⟩
  rcases hpre with rfl | rfl
  · simpa [applied, offsets_ok] using h
  · simpa [applied, offsets_ok, Event.applied] using h

/-- C8: a read that reports more bytes than the remaining length is counted
as exactly the remaining length and the pass goes on to the loop condition;
every `read` of a call of `gather_random` is made at the offset that equals
the bytes added to the buffer so far, and offset plus count (the remaining
length) is the requested length; the assertion `n <= length` never fails;
the bytes added to the buffer never exceed the requested length and equal it
when the call returns. -/
theorem C8_clamped_read_accounting (cfg : Config) (env : Env) (s : Statics)
    (buffer : List byte) (L : Nat) (level : Int) :
    (∀ (fd rc : Int) (st : LoopState) (data : List byte) (rest : List ReadRes),
      rc ≠ 0 → rc ≠ -1 → st.length < data.length →
      (loop_body fd rc (.ok data :: rest) st).2
        = .cond (st.advance st.length (write_at st.buffer st.off (data.take st.length))) rest ∧
      (st.advance st.length (write_at st.buffer st.off (data.take st.length))).length = 0) ∧
    (∀ pre post f o c res,
      (gather_random cfg env s buffer L level).trace = pre ++ .read f o c res :: post →
      o = applied pre ∧ o + c = L) ∧
    (gather_random cfg env s buffer L level).outcome ≠ .stopped .assert_failed ∧
    applied (gather_random cfg env s buffer L level).trace ≤ L ∧
    (∀ ret buf1, (gather_random cfg env s buffer L level).outcome = .returned ret buf1 →
      applied (gather_random cfg env s buffer L level).trace = L) := by
  have hcons := gather_loop_conserve
  have happ := gather_loop_applied
  have key : ∀ (s1 : Statics) (fd : Int) (pre : List Event) (minor : Int),
      (pre = [] ∨ pre = [.open_device (selected level) minor]) →
      (∀ pre1 post f o c res,
        (gather_with env s1 fd pre buffer L).trace = pre1 ++ .read f o c res :: post →
        o = applied pre1 ∧ o + c = L) ∧
      (gather_with env s1 fd pre buffer L).outcome ≠ .stopped .assert_failed ∧
      applied (gather_with env s1 fd pre buffer L).trace ≤ L ∧
      (∀ ret buf1, (gather_with env s1 fd pre buffer L).outcome = .returned ret buf1 →
        applied (gather_with env s1 fd pre buffer L).trace = L) := by
    intro s1 fd pre minor hpre
    obtain ⟨hoffs, happl⟩ := offsets_ok_gather_with env s1 fd minor (selected level) buffer L pre hpre
    have hc := hcons fd env.selects env.reads ⟨buffer, 0, L, false⟩
    have ha := happ fd env.selects env.reads ⟨buffer, 0, L, false⟩
    simp only [Nat.zero_add] at hc ha
    refine ⟨?_, ?_, ?_, ?_⟩
    · intro pre1 post f o c res htr
      refine ⟨?_, ?_⟩
      · rw [htr] at hoffs
        simpa using offsets_ok_split hoffs
      · have hmem : Event.read f o c res ∈ (gather_with env s1 fd pre buffer L).trace := by
          rw [htr]; simp
        rw [gather_with_trace] at hmem
        rcases List.mem_append.1 hmem with h | h
        · rcases hpre with rfl | rfl <;> simp at h
        · simpa using gather_loop_read_args fd env.selects env.reads ⟨buffer, 0, L, false⟩ _ h
            f o c res rfl
    · rw [gather_with_outcome]
      intro h
      split at h
      · simp at h
      · rename_i x hx
        simp at h
        subst h
        exact hc.2.1 hx
    · rw [happl]; omega
    · intro ret buf1 h
      rw [gather_with_outcome] at h
      split at h
      · rename_i hx
        have := hc.2.2 hx
        rw [happl]; omega
      · simp at h
  refine ⟨?_, ?_⟩
  · intro fd rc st data rest h0 h1 hlen
    have hgt : data.length > st.length := hlen
    simp [loop_body, h0, h1, read_loop, hgt, LoopState.advance]
  · rcases gather_random_cases cfg env s buffer L level with
      ⟨_, heq⟩ | ⟨_, _, f, minor, heq⟩ | ⟨_, _, s1, minor, _, _, _, heq⟩
    · rw [heq]
      exact key s _ [] 0 (Or.inl rfl)
    · rw [heq]
      refine ⟨?_, by simp, by simp [applied, Event.applied], by simp⟩
      intro pre post f' o c res htr
      have : Event.read f' o c res ∈ [Event.open_device (selected level) minor] := by
        simp only at htr
        rw [htr]; simp
      simp at this
    · rw [heq]
      exact key s1 _ _ minor (Or.inr rfl)

/-- C8 at a device that answers the request for 32 bytes with 10 bytes, a
timeout and an over-long read of 40 bytes: each read is made at the offset of
the bytes added so far, offset and count add up to 32, and 32 bytes are added
in all. -/
theorem C8_clamped_read_accounting_witness :
    (∀ pre post f o c res,
      (gather_random ⟨false, false⟩ ⟨fun _ => ⟨3, 0, true⟩, [1, 0, 1],
        [.ok (List.range 10), .ok (List.range 40)]⟩ Statics.init (List.replicate 32 0) 32 0).trace
        = pre ++ .read f o c res :: post → o = applied pre ∧ o + c = 32) ∧
    applied (gather_random ⟨false, false⟩ ⟨fun _ => ⟨3, 0, true⟩, [1, 0, 1],
        [.ok (List.range 10), .ok (List.range 40)]⟩ Statics.init (List.replicate 32 0) 32 0).trace
      = 32 :=
  ⟨(C8_clamped_read_accounting ⟨false, false⟩ ⟨fun _ => ⟨3, 0, true⟩, [1, 0, 1],
        [.ok (List.range 10), .ok (List.range 40)]⟩ Statics.init (List.replicate 32 0) 32 0).2.1,
   (C8_clamped_read_accounting ⟨false, false⟩ ⟨fun _ => ⟨3, 0, true⟩, [1, 0, 1],
        [.ok (List.range 10), .ok (List.range 40)]⟩ Statics.init (List.replicate 32 0) 32 0).2.2.2.2
      100 (List.range 10 ++ List.range 22) (by decide)⟩

theorem selected_of_ge {level : Int} (h : 2 ≤ level) : selected level = .NAME_OF_DEV_RANDOM := by
  simp [selected, h]

theorem selected_of_lt {level : Int} (h : level < 2) : selected level = .NAME_OF_DEV_URANDOM := by
  have : ¬ level ≥ 2 := by omega
  simp [selected, this]

/-- Every wait and read of a call is on the handle of the selected device as
stored after the call, the call opens no other device path, and the handle of
every other device path is left as it was. -/
theorem gather_random_selected (cfg : Config) (env : Env) (s : Statics)
    (buffer : List byte) (L : Nat) (level : Int) :
    (∀ e ∈ (gather_random cfg env s buffer L level).trace,
      e.on_fd ((gather_random cfg env s buffer L level).statics.handle (selected level)) = true) ∧
    (∀ name, name ≠ selected level →
      (∀ e ∈ (gather_random cfg env s buffer L level).trace, e.opens name = false) ∧
      (gather_random cfg env s buffer L level).statics.handle name = s.handle name) := by
  rcases gather_random_cases cfg env s buffer L level with
    ⟨_, heq⟩ | ⟨_, _, f, minor, heq⟩ | ⟨_, _, s1, minor, _, _, hother, heq⟩
  · rw [heq, gather_with_statics, gather_with_trace]
    refine ⟨?_, ?_⟩
    · intro e he
      simp only [List.nil_append] at he
      exact (gather_loop_on_fd _ _ _ _ e he).1
    · intro name _
      refine ⟨?_, rfl⟩
      intro e he
      simp only [List.nil_append] at he
      have := (gather_loop_on_fd _ _ _ _ e he).2
      cases e <;> simp_all [Event.opens, Event.is_open]
  · rw [heq]
    refine ⟨by simp [Event.on_fd], ?_⟩
    intro name hn
    refine ⟨?_, rfl⟩
    simp [Event.opens]
    exact fun h => hn h.symm
  · rw [heq, gather_with_statics, gather_with_trace]
    refine ⟨?_, ?_⟩
    · intro e he
      rcases List.mem_append.1 he with h | h
      · simp at h; simp [h, Event.on_fd]
      · exact (gather_loop_on_fd _ _ _ _ e h).1
    · intro name hn
      refine ⟨?_, hother name hn⟩
      intro e he
      rcases List.mem_append.1 he with h | h
      · simp at h
        simp [h, Event.opens]
        exact fun h => hn h.symm
      · have := (gather_loop_on_fd _ _ _ _ e h).2
        cases e <;> simp_all [Event.opens, Event.is_open]

/-- C3: for every level >= 2 every wait and every read of a call of
`gather_random` is on the handle stored for NAME_OF_DEV_RANDOM, the call does
not open NAME_OF_DEV_URANDOM, leaves its handle as it was, and uses it for no
wait or read when it differs from the handle in use; for every level < 2,
zero and negative levels included, the same holds with the two devices
exchanged. -/
theorem C3_device_selection (cfg : Config) (env : Env) (s : Statics)
    (buffer : List byte) (L : Nat) (level : Int) :
    (2 ≤ level →
      (∀ e ∈ (gather_random cfg env s buffer L level).trace,
        e.on_fd (gather_random cfg env s buffer L level).statics.fd_random = true) ∧
      (∀ e ∈ (gather_random cfg env s buffer L level).trace,
        e.opens .NAME_OF_DEV_URANDOM = false) ∧
      (gather_random cfg env s buffer L level).statics.fd_urandom = s.fd_urandom ∧
      ((gather_random cfg env s buffer L level).statics.fd_urandom
          ≠ (gather_random cfg env s buffer L level).statics.fd_random →
        ∀ e ∈ (gather_random cfg env s buffer L level).trace, ∀ rc o c res,
          e ≠ .select (gather_random cfg env s buffer L level).statics.fd_urandom rc ∧
          e ≠ .read (gather_random cfg env s buffer L level).statics.fd_urandom o c res)) ∧
    (level < 2 →
      (∀ e ∈ (gather_random cfg env s buffer L level).trace,
        e.on_fd (gather_random cfg env s buffer L level).statics.fd_urandom = true) ∧
      (∀ e ∈ (gather_random cfg env s buffer L level).trace,
        e.opens .NAME_OF_DEV_RANDOM = false) ∧
      (gather_random cfg env s buffer L level).statics.fd_random = s.fd_random ∧
      ((gather_random cfg env s buffer L level).statics.fd_random
          ≠ (gather_random cfg env s buffer L level).statics.fd_urandom →
        ∀ e ∈ (gather_random cfg env s buffer L level).trace, ∀ rc o c res,
          e ≠ .select (gather_random cfg env s buffer L level).statics.fd_random rc ∧
          e ≠ .read (gather_random cfg env s buffer L level).statics.fd_random o c res)) := by
  obtain ⟨hfd, hother⟩ := gather_random_selected cfg env s buffer L level
  refine ⟨?_, ?_⟩
  · intro hl
    rw [selected_of_ge hl] at hfd hother
    obtain ⟨hopen, hkeep⟩ := hother .NAME_OF_DEV_URANDOM (by decide)
    refine ⟨hfd, hopen, hkeep, ?_⟩
    intro hne e he rc o c res
    have := hfd e he
    refine ⟨?_, ?_⟩
    · rintro rfl
      simp only [Event.on_fd, decide_eq_true_eq] at this
      exact hne this
    · rintro rfl
      simp only [Event.on_fd, decide_eq_true_eq] at this
      exact hne this
  · intro hl
    rw [selected_of_lt hl] at hfd hother
    obtain ⟨hopen, hkeep⟩ := hother .NAME_OF_DEV_RANDOM (by decide)
    refine ⟨hfd, hopen, hkeep, ?_⟩
    intro hne e he rc o c res
    have := hfd e he
    refine ⟨?_, ?_⟩
    · rintro rfl
      simp only [Event.on_fd, decide_eq_true_eq] at this
      exact hne this
    · rintro rfl
      simp only [Event.on_fd, decide_eq_true_eq] at this
      exact hne this

/-- C3 at level 2 and at level -1, both handles stored already (7 and 5):
the waits and reads are on 5 at level 2 and on 7 at level -1. -/
theorem C3_device_selection_witness :
    ((2 : Int) ≤ 2 ∧
      (∀ e ∈ (gather_random ⟨false, false⟩ ⟨fun _ => ⟨3, 0, true⟩, [1], [.ok [1, 2]]⟩ ⟨7, 5⟩
          [0, 0] 2 2).trace, e.on_fd 5 = true)) ∧
    ((-1 : Int) < 2 ∧
      (∀ e ∈ (gather_random ⟨false, false⟩ ⟨fun _ => ⟨3, 0, true⟩, [1], [.ok [1, 2]]⟩ ⟨7, 5⟩
          [0, 0] 2 (-1)).trace, e.on_fd 7 = true)) :=
  ⟨⟨by decide,
      ((C3_device_selection ⟨false, false⟩ ⟨fun _ => ⟨3, 0, true⟩, [1], [.ok [1, 2]]⟩ ⟨7, 5⟩
        [0, 0] 2 2).1 (by decide)).1⟩,
   ⟨by decide,
      ((C3_device_selection ⟨false, false⟩ ⟨fun _ => ⟨3, 0, true⟩, [1], [.ok [1, 2]]⟩ ⟨7, 5⟩
        [0, 0] 2 (-1)).2 (by decide)).1⟩⟩

/-- C2 (amended): a call of `gather_random` ends in a fatal termination if
and only if the first-use acquisition of the selected device fails (`open`
fails, `fstat` fails, or, in a build other than sparc-linux, the file is not
a character-special device) or one of its reads fails with an errno other
than EINTR; a call that ends fatally returns no value and no buffer; and
when the acquisition does not fail and no read of the environment fails with
an errno other than EINTR, whatever the waits and reads answer otherwise, the
call does not end fatally. -/
theorem C2_fatal_iff_acquisition_or_read_error (cfg : Config) (env : Env) (s : Statics)
    (buffer : List byte) (L : Nat) (level : Int) :
    ((∃ f, (gather_random cfg env s buffer L level).outcome = .stopped (.fatal f)) ↔
      (acquisition_fails cfg env s level ∨
        ∃ e ∈ (gather_random cfg env s buffer L level).trace, e.is_fatal_read = true)) ∧
    ((∃ f, (gather_random cfg env s buffer L level).outcome = .stopped (.fatal f)) →
      ∀ ret buf1, (gather_random cfg env s buffer L level).outcome ≠ .returned ret buf1) ∧
    (¬ acquisition_fails cfg env s level → (∀ r ∈ env.reads, r.is_fatal = false) →
      ∀ f, (gather_random cfg env s buffer L level).outcome ≠ .stopped (.fatal f)) := by
  have key : ∀ (s1 : Statics) (fd : Int) (pre : List Event),
      (∀ e ∈ pre, e.is_fatal_read = false) →
      ((∃ f, (gather_with env s1 fd pre buffer L).outcome = .stopped (.fatal f)) ↔
        ∃ e ∈ (gather_with env s1 fd pre buffer L).trace, e.is_fatal_read = true) := by
    intro s1 fd pre hpre
    rw [gather_with_outcome, gather_with_trace]
    have h := gather_loop_fatal_iff fd env.selects env.reads ⟨buffer, 0, L, false⟩
    constructor
    · rintro ⟨f, hf⟩
      split at hf
      · simp at hf
      · rename_i x hx
        simp at hf
        subst hf
        obtain ⟨e, he, hfe⟩ := h.1 ⟨f, hx⟩
        exact ⟨e, List.mem_append.2 (Or.inr he), hfe⟩
    · rintro ⟨e, he, hfe⟩
      rcases List.mem_append.1 he with h1 | h1
      · rw [hpre e h1] at hfe; simp at hfe
      · obtain ⟨f, hf⟩ := h.2 ⟨e, h1, hfe⟩
        exact ⟨f, by rw [hf]⟩
  have hiff : (∃ f, (gather_random cfg env s buffer L level).outcome = .stopped (.fatal f)) ↔
      (acquisition_fails cfg env s level ∨
        ∃ e ∈ (gather_random cfg env s buffer L level).trace, e.is_fatal_read = true) := by
    rcases gather_random_cases cfg env s buffer L level with
      ⟨hst, heq⟩ | ⟨_, hacq, f, minor, heq⟩ | ⟨_, hacq, s1, minor, _, _, _, heq⟩
    · have hacq : ¬ acquisition_fails cfg env s level := fun h => hst h.1
      rw [heq, key s _ [] (by simp)]
      simp [hacq]
    · rw [heq]
      simp [hacq]
    · rw [heq, key s1 _ _ (by simp [Event.is_fatal_read])]
      simp [hacq]
  refine ⟨hiff, ?_, ?_⟩
  · rintro ⟨f, hf⟩ ret buf1 h
    rw [hf] at h
    simp at h
  · intro hacq hreads f hf
    rcases hiff.1 ⟨f, hf⟩ with h | ⟨e, he, hfe⟩
    · exact hacq h
    · cases e with
      | read fd o c res =>
        have hmem : res ∈ env.reads := by
          rcases gather_random_cases cfg env s buffer L level with
            ⟨_, heq⟩ | ⟨_, _, f, minor, heq⟩ | ⟨_, _, s1, minor, _, _, _, heq⟩
          · rw [heq, gather_with_trace] at he
            simp only [List.nil_append] at he
            exact gather_loop_read_from_script _ _ _ _ _ he fd o c res rfl
          · rw [heq] at he; simp at he
          · rw [heq, gather_with_trace] at he
            rcases List.mem_append.1 he with h | h
            · simp at h
            · exact gather_loop_read_from_script _ _ _ _ _ h fd o c res rfl
        have := hreads res hmem
        cases res <;> simp_all [Event.is_fatal_read, ReadRes.is_fatal]
      | _ => simp [Event.is_fatal_read] at hfe

/-- C2 at a device whose `open` fails: the call ends fatally; and at a healthy
device that answers a wait with a failure and a read with EINTR before it
delivers: the call does not end fatally. -/
theorem C2_fatal_iff_acquisition_or_read_error_witness :
    (∃ f, (gather_random ⟨false, false⟩ ⟨fun _ => ⟨-1, 0, true⟩, [1], [.ok [7]]⟩ Statics.init
      [0] 1 0).outcome = .stopped (.fatal f)) ∧
    (∀ f, (gather_random ⟨false, false⟩ ⟨fun _ => ⟨3, 0, true⟩, [-1, 0, 1], [.err EINTR, .ok [7]]⟩
      Statics.init [0] 1 0).outcome ≠ .stopped (.fatal f)) :=
  ⟨(C2_fatal_iff_acquisition_or_read_error ⟨false, false⟩ ⟨fun _ => ⟨-1, 0, true⟩, [1], [.ok [7]]⟩
      Statics.init [0] 1 0).1.2 (Or.inl ⟨by decide, Or.inl (by decide)⟩),
   (C2_fatal_iff_acquisition_or_read_error ⟨false, false⟩
      ⟨fun _ => ⟨3, 0, true⟩, [-1, 0, 1], [.err EINTR, .ok [7]]⟩ Statics.init [0] 1 0).2.2
      (by simp [acquisition_fails, selected]) (by decide)⟩

/-- C2 as stated fails in a sparc-linux build, where the character-device
check is compiled out: at the first use of a path that is not a
character-special device the acquisition fails in the sense of the claim,
yet the call returns 100 with the byte the device delivered. -/
theorem C2_counterexample :
    acquisition_fails_stated ⟨fun _ => ⟨3, 0, false⟩, [1], [.ok [7]]⟩ Statics.init 0 ∧
    (gather_random ⟨true, false⟩ ⟨fun _ => ⟨3, 0, false⟩, [1], [.ok [7]]⟩ Statics.init
      [0] 1 0).outcome = .returned 100 [7] ∧
    ¬ ∃ f, (gather_random ⟨true, false⟩ ⟨fun _ => ⟨3, 0, false⟩, [1], [.ok [7]]⟩ Statics.init
      [0] 1 0).outcome = .stopped (.fatal f) := by
  refine ⟨⟨by decide, Or.inr (Or.inr rfl)⟩, by decide, ?_⟩
  rintro ⟨f, hf⟩
  have hout : (gather_random ⟨true, false⟩ ⟨fun _ => ⟨3, 0, false⟩, [1], [.ok [7]]⟩ Statics.init
      [0] 1 0).outcome = .returned 100 [7] := by decide
  rw [hout] at hf
  cases hf

/-- The reads of the inner loop are neither waits nor notices. -/
theorem read_loop_events_quiet (fd : Int) (buf : List byte) (off len : Nat)
    (reads : List ReadRes) :
    ∀ e ∈ (read_loop fd buf off len reads).1, e.is_timeout = false ∧ e.is_notice = false ∧
      e.is_select = false := by
  intro e he
  obtain ⟨k, hk⟩ := read_loop_shape fd buf off len reads
  rcases hk with ⟨_, h2⟩ | ⟨e1, rest, _, _, h2⟩ | ⟨data, rest, _, h2⟩
  · rw [h2] at he
    simp [mem_eintr_events he, Event.is_timeout, Event.is_notice, Event.is_select]
  · rw [h2] at he
    rcases List.mem_append.1 he with h | h
    · simp [mem_eintr_events h, Event.is_timeout, Event.is_notice, Event.is_select]
    · simp at h; simp [h, Event.is_timeout, Event.is_notice, Event.is_select]
  · rw [h2] at he
    rcases List.mem_append.1 he with h | h
    · simp [mem_eintr_events h, Event.is_timeout, Event.is_notice, Event.is_select]
    · rcases mem_ok_events h with h | h <;>
        simp [h, Event.is_timeout, Event.is_notice, Event.is_select]

/-- The events of a pass that reads are neither timeouts nor notices. -/
theorem ready_pass_quiet {fd : Int} (rc : Int) {buf : List byte} {off len : Nat} {reads : List ReadRes}
    {evs : List Event} {res : ReadLoopRes} (h0 : rc ≠ 0)
    (hr : read_loop fd buf off len reads = (evs, res)) :
    ∀ e ∈ Event.select fd rc :: evs, e.is_timeout = false ∧ e.is_notice = false := by
  intro e he
  rcases List.mem_cons.1 he with h | h
  · simp [h, Event.is_timeout, Event.is_notice, h0]
  · have := read_loop_events_quiet fd buf off len reads e (by rw [hr]; exact h)
    exact ⟨this.1, this.2.1⟩

/-- The bytes a pass that reads adds to the buffer. -/
theorem ready_pass_applied {fd : Int} (rc : Int) {buf : List byte} {off len : Nat}
    {reads : List ReadRes} {evs : List Event} {n : Nat} {buf1 : List byte} {rest : List ReadRes}
    (hr : read_loop fd buf off len reads = (evs, .done n buf1 rest)) :
    applied (Event.select fd rc :: evs) = n := by
  obtain ⟨k, data, _, hevs, hn, _⟩ := read_loop_done_inv hr
  subst hevs
  simp only [applied_cons, applied_append, applied_eintr_events, applied_ok_events,
    Event.applied]
  omega

/-- The notice of the loop: none once `warn` is set; otherwise none when no
wait times out, and else exactly one, right after the first timeout, with the
length still missing then. -/
theorem gather_loop_notice (fd : Int) (sels : List Int) (reads : List ReadRes)
    (st : LoopState) :
    (st.warn = true → ∀ e ∈ (gather_loop fd sels reads st).trace, e.is_notice = false) ∧
    (st.warn = false →
      (∀ e ∈ (gather_loop fd sels reads st).trace, e.is_timeout = false ∧ e.is_notice = false) ∨
      (∃ pre post need,
        (gather_loop fd sels reads st).trace = pre ++ .select fd 0 :: .notice need :: post ∧
        (∀ e ∈ pre, e.is_timeout = false ∧ e.is_notice = false) ∧
        (∀ e ∈ post, e.is_notice = false) ∧ need + applied pre = st.length)) := by
  refine gather_loop_cases fd
    (fun _ _ st r =>
      (st.warn = true → ∀ e ∈ r.trace, e.is_notice = false) ∧
      (st.warn = false →
        (∀ e ∈ r.trace, e.is_timeout = false ∧ e.is_notice = false) ∨
        (∃ pre post need, r.trace = pre ++ .select fd 0 :: .notice need :: post ∧
          (∀ e ∈ pre, e.is_timeout = false ∧ e.is_notice = false) ∧
          (∀ e ∈ post, e.is_notice = false) ∧ need + applied pre = st.length)))
    ?_ ?_ ?_ ?_ ?_ ?_ ?_ ?_ ?_ sels reads st
  · intro _ _; simp
  · intro sels reads st _ ih
    have ih1 := ih.1 rfl
    refine ⟨?_, ?_⟩
    · intro hw e he
      rcases List.mem_append.1 he with h | h
      · simp [timeout_events, hw] at h
        simp [h, Event.is_notice]
      · exact ih1 e h
    · intro hw
      right
      refine ⟨[], _, st.length, ?_, by simp, ih1, by simp [applied]⟩
      simp [timeout_events, hw]
  · intro sels reads st _
    refine ⟨?_, ?_⟩
    · intro hw e he
      simp [timeout_events, hw] at he
      simp [he, Event.is_notice]
    · intro hw
      right
      exact ⟨[], [], st.length, by simp [timeout_events, hw], by simp, by simp, by simp [applied]⟩
  · intro sels reads st _ ih
    have hq : ∀ e ∈ [Event.select fd (-1), Event.select_error],
        e.is_timeout = false ∧ e.is_notice = false := by
      intro e he
      simp at he
      rcases he with h | h <;> simp [h, Event.is_timeout, Event.is_notice]
    refine ⟨?_, ?_⟩
    · intro hw e he
      rcases List.mem_append.1 he with h | h
      · exact (hq e h).2
      · exact ih.1 hw e h
    · intro hw
      rcases ih.2 hw with h | ⟨pre, post, need, h1, h2, h3, h4⟩
      · left
        intro e he
        rcases List.mem_append.1 he with h' | h'
        · exact hq e h'
        · exact h e h'
      · right
        refine ⟨[Event.select fd (-1), Event.select_error] ++ pre, post, need, ?_, ?_, h3, ?_⟩
        · rw [h1]; simp
        · intro e he
          rcases List.mem_append.1 he with h' | h'
          · exact hq e h'
          · exact h2 e h'
        · rw [applied_append]
          simpa [applied, Event.applied] using h4
  · intro sels reads st _
    have hq : ∀ e ∈ [Event.select fd (-1), Event.select_error],
        e.is_timeout = false ∧ e.is_notice = false := by
      intro e he
      simp at he
      rcases he with h | h <;> simp [h, Event.is_timeout, Event.is_notice]
    exact ⟨fun _ e he => (hq e he).2, fun _ => Or.inl hq⟩
  · intro rc sels reads st evs h0 _ hr
    have hq := ready_pass_quiet rc h0 hr
    exact ⟨fun _ e he => (hq e he).2, fun _ => Or.inl hq⟩
  · intro rc sels reads st evs e0 h0 _ hr
    have hq := ready_pass_quiet rc h0 hr
    exact ⟨fun _ e he => (hq e he).2, fun _ => Or.inl hq⟩
  · intro rc sels reads st evs n buf1 rest h0 _ hr hn _ ih
    have hq := ready_pass_quiet rc h0 hr
    have ha := ready_pass_applied rc hr
    have hw' : (st.advance n buf1).warn = st.warn := rfl
    have hl' : (st.advance n buf1).length = st.length - n := rfl
    rw [hw', hl'] at ih
    refine ⟨?_, ?_⟩
    · intro hw e he
      rcases List.mem_append.1 he with h | h
      · exact (hq e h).2
      · exact ih.1 hw e h
    · intro hw
      rcases ih.2 hw with h | ⟨pre, post, need, h1, h2, h3, h4⟩
      · left
        intro e he
        rcases List.mem_append.1 he with h' | h'
        · exact hq e h'
        · exact h e h'
      · right
        refine ⟨(Event.select fd rc :: evs) ++ pre, post, need, ?_, ?_, h3, ?_⟩
        · rw [h1]; simp
        · intro e he
          rcases List.mem_append.1 he with h' | h'
          · exact hq e h'
          · exact h2 e h'
        · rw [applied_append, ha]
          omega
  · intro rc sels reads st evs n buf1 rest h0 _ hr _ _
    have hq := ready_pass_quiet rc h0 hr
    exact ⟨fun _ e he => (hq e he).2, fun _ => Or.inl hq⟩

theorem countP_notice_zero {l : List Event} (h : ∀ e ∈ l, e.is_notice = false) :
    l.countP Event.is_notice = 0 := by
  rw [List.countP_eq_zero]
  intro e he
  simp [h e he]

/-- C5 (amended): within one call of `gather_random` the notice "Not enough
random bytes available" is emitted not at all when no wait times out, and
exactly once when at least one does, however many time out: `tty_printf` is
called for it right after the first timeout, with the requested length less
the bytes added to the buffer before it.  In a build without IS_MODULE the
notice shows that number; in a module build the stub `tty_printf` logs the
format string without it.  This holds for every value of the static
variables, that is after any earlier calls: `warn` starts at 0 in each
call. -/
theorem C5_single_notice (cfg : Config) (env : Env) (s : Statics)
    (buffer : List byte) (L : Nat) (level : Int) :
    ((∀ e ∈ (gather_random cfg env s buffer L level).trace, e.is_timeout = false) →
      (gather_random cfg env s buffer L level).trace.countP Event.is_notice = 0) ∧
    ((∃ e ∈ (gather_random cfg env s buffer L level).trace, e.is_timeout = true) →
      (gather_random cfg env s buffer L level).trace.countP Event.is_notice = 1 ∧
      ∃ pre post fd need,
        (gather_random cfg env s buffer L level).trace
          = pre ++ .select fd 0 :: .notice need :: post ∧
        (∀ e ∈ pre, e.is_timeout = false) ∧ need + applied pre = L ∧
        (cfg.is_module = false →
          (Event.notice need).shown cfg = some (.tty .not_enough (some need))) ∧
        (cfg.is_module = true →
          (Event.notice need).shown cfg = some (.log_info .not_enough))) := by
  have hshown : ∀ need : Nat,
      (cfg.is_module = false →
        (Event.notice need).shown cfg = some (.tty .not_enough (some need))) ∧
      (cfg.is_module = true →
        (Event.notice need).shown cfg = some (.log_info .not_enough)) := by
    intro need
    constructor <;> intro h <;> simp [Event.shown, tty_printf, h]
  have key : ∀ (s1 : Statics) (fd : Int) (pre0 : List Event),
      (∀ e ∈ pre0, e.is_timeout = false ∧ e.is_notice = false) → applied pre0 = 0 →
      ((∀ e ∈ (gather_with env s1 fd pre0 buffer L).trace, e.is_timeout = false) →
        (gather_with env s1 fd pre0 buffer L).trace.countP Event.is_notice = 0) ∧
      ((∃ e ∈ (gather_with env s1 fd pre0 buffer L).trace, e.is_timeout = true) →
        (gather_with env s1 fd pre0 buffer L).trace.countP Event.is_notice = 1 ∧
        ∃ pre post f need,
          (gather_with env s1 fd pre0 buffer L).trace
            = pre ++ .select f 0 :: .notice need :: post ∧
          (∀ e ∈ pre, e.is_timeout = false) ∧ need + applied pre = L ∧
          (cfg.is_module = false →
            (Event.notice need).shown cfg = some (.tty .not_enough (some need))) ∧
          (cfg.is_module = true →
            (Event.notice need).shown cfg = some (.log_info .not_enough))) := by
    intro s1 fd pre0 hpre0 happ0
    rw [gather_with_trace]
    have h := (gather_loop_notice fd env.selects env.reads ⟨buffer, 0, L, false⟩).2 rfl
    rcases h with h | ⟨pre, post, need, h1, h2, h3, h4⟩
    · have hall : ∀ e ∈ pre0 ++ (gather_loop fd env.selects env.reads
          ⟨buffer, 0, L, false⟩).trace, e.is_timeout = false ∧ e.is_notice = false := by
        intro e he
        rcases List.mem_append.1 he with h' | h'
        · exact hpre0 e h'
        · exact h e h'
      refine ⟨fun _ => countP_notice_zero (fun e he => (hall e he).2), ?_⟩
      rintro ⟨e, he, ht⟩
      rw [(hall e he).1] at ht
      simp at ht
    · have hcount : (pre0 ++ (gather_loop fd env.selects env.reads
          ⟨buffer, 0, L, false⟩).trace).countP Event.is_notice = 1 := by
        rw [h1, List.countP_append, List.countP_append, List.countP_cons, List.countP_cons,
          countP_notice_zero (fun e he => (hpre0 e he).2),
          countP_notice_zero (fun e he => (h2 e he).2), countP_notice_zero h3]
        simp [Event.is_notice]
      refine ⟨?_, ?_⟩
      · intro hno
        have := hno (.select fd 0) (by rw [h1]; simp)
        simp [Event.is_timeout] at this
      · intro _
        refine ⟨hcount, pre0 ++ pre, post, fd, need, by rw [h1]; simp, ?_, ?_, hshown need⟩
        · intro e he
          rcases List.mem_append.1 he with h' | h'
          · exact (hpre0 e h').1
          · exact (h2 e h').1
        · rw [applied_append, happ0]
          simpa using h4
  rcases gather_random_cases cfg env s buffer L level with
    ⟨_, heq⟩ | ⟨_, _, f, minor, heq⟩ | ⟨_, _, s1, minor, _, _, _, heq⟩
  · rw [heq]
    exact key s _ [] (by simp) (by simp [applied])
  · rw [heq]
    simp [Event.is_timeout, Event.is_notice]
  · rw [heq]
    exact key s1 _ [.open_device (selected level) minor]
      (by simp [Event.is_timeout, Event.is_notice]) (by simp [applied, Event.applied])

/-- C5 at a device that delivers 10 of 32 bytes, lets three waits time out
and then delivers the rest, in a build without IS_MODULE: one notice, shown
with the number 22. -/
theorem C5_single_notice_witness :
    (∃ e ∈ (gather_random ⟨false, false⟩ ⟨fun _ => ⟨3, 0, true⟩, [1, 0, 0, 0, 1],
        [.ok (List.range 10), .ok (List.range 22)]⟩ Statics.init (List.replicate 32 0) 32 0).trace,
      e.is_timeout = true) ∧
    (gather_random ⟨false, false⟩ ⟨fun _ => ⟨3, 0, true⟩, [1, 0, 0, 0, 1],
        [.ok (List.range 10), .ok (List.range 22)]⟩ Statics.init (List.replicate 32 0) 32 0
      ).trace.countP Event.is_notice = 1 ∧
    (gather_random ⟨false, false⟩ ⟨fun _ => ⟨3, 0, true⟩, [1, 0, 0, 0, 1],
        [.ok (List.range 10), .ok (List.range 22)]⟩ Statics.init (List.replicate 32 0) 32 0
      ).trace.filterMap (Event.shown ⟨false, false⟩) = [.tty .not_enough (some 22)] :=
  ⟨⟨.select 3 0, by decide, rfl⟩,
   ((C5_single_notice ⟨false, false⟩ ⟨fun _ => ⟨3, 0, true⟩, [1, 0, 0, 0, 1],
        [.ok (List.range 10), .ok (List.range 22)]⟩ Statics.init (List.replicate 32 0) 32 0).2
      ⟨.select 3 0, by decide, rfl⟩).1,
   by decide⟩

/-- C5 as stated fails in a module build: of a call for 32 bytes whose device
delivers 10 bytes, lets a wait time out and delivers the rest, the operator
sees one line, the one `g10_log_info` writes for the stub `tty_printf`, and
it holds the format string and not the number 22 of bytes still missing. -/
theorem C5_counterexample :
    (∃ e ∈ (gather_random ⟨false, true⟩ ⟨fun _ => ⟨3, 0, true⟩, [1, 0, 1],
        [.ok (List.range 10), .ok (List.range 22)]⟩ Statics.init (List.replicate 32 0) 32 0).trace,
      e.is_timeout = true) ∧
    (gather_random ⟨false, true⟩ ⟨fun _ => ⟨3, 0, true⟩, [1, 0, 1],
        [.ok (List.range 10), .ok (List.range 22)]⟩ Statics.init (List.replicate 32 0) 32 0
      ).trace.filterMap (Event.shown ⟨false, true⟩) = [.log_info .not_enough] ∧
    ¬ ∃ n, Output.tty .not_enough (some n) ∈
      (gather_random ⟨false, true⟩ ⟨fun _ => ⟨3, 0, true⟩, [1, 0, 1],
        [.ok (List.range 10), .ok (List.range 22)]⟩ Statics.init (List.replicate 32 0) 32 0
      ).trace.filterMap (Event.shown ⟨false, true⟩) := by
  have h : (gather_random ⟨false, true⟩ ⟨fun _ => ⟨3, 0, true⟩, [1, 0, 1],
        [.ok (List.range 10), .ok (List.range 22)]⟩ Statics.init (List.replicate 32 0) 32 0
      ).trace.filterMap (Event.shown ⟨false, true⟩) = [.log_info .not_enough] := by decide
  refine ⟨⟨.select 3 0, by decide, rfl⟩, h, ?_⟩
  rw [h]
  simp

/-- Removing the EINTR reads from the answers does not change how the inner
read loop ends. -/
theorem read_loop_without_eintr (fd : Int) (buf : List byte) (off len : Nat)
    (reads : List ReadRes) :
    (read_loop fd buf off len (reads.filter (fun r => !r.is_eintr))).2
      = (read_loop fd buf off len reads).2.without_eintr := by
  induction reads with
  | nil => simp [read_loop, ReadLoopRes.without_eintr]
  | cons r rs ih =>
    cases r with
    | ok data =>
      by_cases h : data.length > len
      · simp [read_loop, ReadRes.is_eintr, ReadLoopRes.without_eintr, h]
      · simp [read_loop, ReadRes.is_eintr, ReadLoopRes.without_eintr, h]
    | err e =>
      by_cases he : e = EINTR
      · simp [read_loop, ReadRes.is_eintr, he]
        simpa using ih
      · simp [read_loop, ReadRes.is_eintr, he, ReadLoopRes.without_eintr]

/-- With a positive length to fetch, removing the failed waits and the EINTR
reads from the answers changes neither how the loop ends nor its last state. -/
theorem gather_loop_without_retries (fd : Int) (sels : List Int) (reads : List ReadRes)
    (st : LoopState) (hpos : st.length ≠ 0) :
    (gather_loop fd (sels.filter (fun rc => decide (rc ≠ -1)))
        (reads.filter (fun r => !r.is_eintr)) st).stop = (gather_loop fd sels reads st).stop ∧
    (gather_loop fd (sels.filter (fun rc => decide (rc ≠ -1)))
        (reads.filter (fun r => !r.is_eintr)) st).st = (gather_loop fd sels reads st).st := by
  revert hpos
  refine gather_loop_cases fd
    (fun sels reads st r => st.length ≠ 0 →
      (gather_loop fd (sels.filter (fun rc => decide (rc ≠ -1)))
        (reads.filter (fun r => !r.is_eintr)) st).stop = r.stop ∧
      (gather_loop fd (sels.filter (fun rc => decide (rc ≠ -1)))
        (reads.filter (fun r => !r.is_eintr)) st).st = r.st)
    ?_ ?_ ?_ ?_ ?_ ?_ ?_ ?_ ?_ sels reads st
  · intro _ _ _; simp [gather_loop]
  · intro sels reads st hl ih _
    have := ih hl
    simpa [gather_loop, loop_body, hl] using this
  · intro sels reads st hl h; exact absurd hl h
  · intro sels reads st hl ih _
    have := ih hl
    simpa using this
  · intro sels reads st hl h; exact absurd hl h
  · intro rc sels reads st evs h0 h1 hr _
    have hf := read_loop_without_eintr fd st.buffer st.off st.length reads
    rw [hr] at hf
    simp only [ReadLoopRes.without_eintr] at hf
    rcases hr' : read_loop fd st.buffer st.off st.length (reads.filter (fun r => !r.is_eintr))
      with ⟨evs', res'⟩
    rw [hr'] at hf
    simp only at hf
    subst hf
    simp [gather_loop, loop_body, h0, h1, hr']
  · intro rc sels reads st evs e h0 h1 hr _
    have hf := read_loop_without_eintr fd st.buffer st.off st.length reads
    rw [hr] at hf
    simp only [ReadLoopRes.without_eintr] at hf
    rcases hr' : read_loop fd st.buffer st.off st.length (reads.filter (fun r => !r.is_eintr))
      with ⟨evs', res'⟩
    rw [hr'] at hf
    simp only at hf
    subst hf
    simp [gather_loop, loop_body, h0, h1, hr']
  · intro rc sels reads st evs n buf1 rest h0 h1 hr hn hl ih _
    have hf := read_loop_without_eintr fd st.buffer st.off st.length reads
    rw [hr] at hf
    simp only [ReadLoopRes.without_eintr] at hf
    rcases hr' : read_loop fd st.buffer st.off st.length (reads.filter (fun r => !r.is_eintr))
      with ⟨evs', res'⟩
    rw [hr'] at hf
    simp only at hf
    subst hf
    have := ih hl
    simpa [gather_loop, loop_body, h0, h1, hr', hn, hl, LoopState.advance] using this
  · intro rc sels reads st evs n buf1 rest h0 h1 hr hn hl _
    have hf := read_loop_without_eintr fd st.buffer st.off st.length reads
    rw [hr] at hf
    simp only [ReadLoopRes.without_eintr] at hf
    rcases hr' : read_loop fd st.buffer st.off st.length (reads.filter (fun r => !r.is_eintr))
      with ⟨evs', res'⟩
    rw [hr'] at hf
    simp only at hf
    subst hf
    simp [gather_loop, loop_body, h0, h1, hr', hn, hl, LoopState.advance]

theorem gather_with_without_retries (env : Env) (s : Statics) (fd : Int) (pre : List Event)
    (buffer : List byte) (L : Nat) (hL : 1 ≤ L) :
    (gather_with env.without_retries s fd pre buffer L).outcome
      = (gather_with env s fd pre buffer L).outcome := by
  have h := gather_loop_without_retries fd env.selects env.reads ⟨buffer, 0, L, false⟩
    (by simp; omega)
  rw [gather_with_outcome, gather_with_outcome]
  simp only [Env.without_retries]
  rw [h.1, h.2]

/-- C4: for every requested length >= 1 and every environment, the outcome of
`gather_random` (the returned value with the buffer contents, or the way the
call does not return) and the static variables are those of the same
environment with all failed waits (`select` returning -1) and all EINTR reads
removed; a failed wait leaves the pass at the loop condition with the local
variables unchanged, and a read that fails with EINTR is followed by the next
read. -/
theorem C4_retries_transparent (cfg : Config) (env : Env) (s : Statics)
    (buffer : List byte) (L : Nat) (level : Int) (hL : 1 ≤ L) :
    (gather_random cfg env s buffer L level).outcome
      = (gather_random cfg env.without_retries s buffer L level).outcome ∧
    (gather_random cfg env s buffer L level).statics
      = (gather_random cfg env.without_retries s buffer L level).statics ∧
    (∀ (fd : Int) (reads : List ReadRes) (st : LoopState),
      (loop_body fd (-1) reads st).2 = .cond st reads) ∧
    (∀ (fd : Int) (buf : List byte) (off len : Nat) (rest : List ReadRes),
      (read_loop fd buf off len (.err EINTR :: rest)).2 = (read_loop fd buf off len rest).2) := by
  have hos : env.without_retries.os = env.os := rfl
  refine ⟨?_, ?_, ?_, ?_⟩
  · simp only [gather_random, hos]
    split_ifs
    · cases open_device cfg env.os .NAME_OF_DEV_RANDOM 8 with
      | error f => rfl
      | ok fd => exact (gather_with_without_retries env _ fd _ buffer L hL).symm
    · exact (gather_with_without_retries env _ _ _ buffer L hL).symm
    · cases open_device cfg env.os .NAME_OF_DEV_URANDOM 9 with
      | error f => rfl
      | ok fd => exact (gather_with_without_retries env _ fd _ buffer L hL).symm
    · exact (gather_with_without_retries env _ _ _ buffer L hL).symm
  · simp only [gather_random, hos]
    split_ifs
    · cases open_device cfg env.os .NAME_OF_DEV_RANDOM 8 with
      | error f => rfl
      | ok fd => simp only [gather_with_statics]
    · simp only [gather_with_statics]
    · cases open_device cfg env.os .NAME_OF_DEV_URANDOM 9 with
      | error f => rfl
      | ok fd => simp only [gather_with_statics]
    · simp only [gather_with_statics]
  · intro fd reads st
    simp [loop_body]
  · intro fd buf off len rest
    simp [read_loop]

/-- C4 at a device that fails a wait, interrupts a read, fails another wait
and then delivers: the call returns what the device without the two failed
waits and the interrupted read makes it return. -/
theorem C4_retries_transparent_witness :
    (1 ≤ 2) ∧
    (gather_random ⟨false, false⟩ ⟨fun _ => ⟨3, 0, true⟩, [-1, 1, -1, 1],
        [.err EINTR, .ok [5], .err EINTR, .ok [6]]⟩ Statics.init [0, 0] 2 0).outcome
      = (gather_random ⟨false, false⟩ ⟨fun _ => ⟨3, 0, true⟩, [1, 1], [.ok [5], .ok [6]]⟩
          Statics.init [0, 0] 2 0).outcome :=
  ⟨by decide,
   (C4_retries_transparent ⟨false, false⟩ ⟨fun _ => ⟨3, 0, true⟩, [-1, 1, -1, 1],
        [.err EINTR, .ok [5], .err EINTR, .ok [6]]⟩ Statics.init [0, 0] 2 0 (by decide)).1⟩

theorem trace_chunks_append (a b : List Event) :
    trace_chunks (a ++ b) = trace_chunks a ++ trace_chunks b := by
  simp [trace_chunks]

theorem trace_chunks_eintr_events (fd : Int) (off len k : Nat) :
    trace_chunks (eintr_events fd off len k) = [] := by
  simp [trace_chunks, eintr_events, List.filterMap_replicate_of_none]

theorem trace_chunks_ok_events (fd : Int) (off len : Nat) (data : List byte) :
    trace_chunks (ok_events fd off len data) = [data] := by
  simp only [ok_events]
  split <;> simp [trace_chunks]

theorem trace_chunks_timeout_events (fd : Int) (st : LoopState) :
    trace_chunks (timeout_events fd st) = [] := by
  simp only [timeout_events]
  split <;> simp [trace_chunks]

theorem trace_chunks_ready_pass {fd : Int} (rc : Int) {buf : List byte} {off len : Nat}
    {reads : List ReadRes} {evs : List Event} {n : Nat} {buf1 : List byte} {rest : List ReadRes}
    (hr : read_loop fd buf off len reads = (evs, .done n buf1 rest)) :
    ∃ data, trace_chunks (Event.select fd rc :: evs) = [data] ∧ n = min data.length len ∧
      buf1 = write_at buf off (data.take len) ∧ chunks reads = data :: chunks rest ∧
      ∀ r ∈ rest, r ∈ reads := by
  obtain ⟨k, data, hreads, hevs, hn, hb⟩ := read_loop_done_inv hr
  subst hevs
  refine ⟨data, ?_, hn, hb, ?_, ?_⟩
  · have : Event.select fd rc :: (eintr_events fd off len k ++ ok_events fd off len data)
        = [Event.select fd rc] ++ (eintr_events fd off len k ++ ok_events fd off len data) := rfl
    rw [this, trace_chunks_append, trace_chunks_append, trace_chunks_eintr_events,
      trace_chunks_ok_events]
    simp [trace_chunks]
  · rw [hreads]
    simp [chunks, List.filterMap_append, List.filterMap_replicate_of_none]
  · intro r hr'
    rw [hreads]
    simp [hr']

theorem trace_chunks_unready_pass {fd rc : Int} {buf : List byte} {off len : Nat}
    {reads : List ReadRes} {evs : List Event} {res : ReadLoopRes}
    (hr : read_loop fd buf off len reads = (evs, res))
    (hres : ∀ n buf1 rest, res ≠ .done n buf1 rest) :
    trace_chunks (Event.select fd rc :: evs) = [] := by
  have hsel : trace_chunks [Event.select fd rc] = [] := by simp [trace_chunks]
  have hlast : ∀ e, trace_chunks [Event.read fd off len (.err e)] = [] := by
    intro e; simp [trace_chunks]
  cases res with
  | done n buf1 rest => exact absurd rfl (hres n buf1 rest)
  | failed e =>
    obtain ⟨k, rest, _, _, hevs⟩ := read_loop_failed_inv hr
    subst hevs
    have : Event.select fd rc :: (eintr_events fd off len k ++ [Event.read fd off len (.err e)])
        = [Event.select fd rc] ++ (eintr_events fd off len k ++ [Event.read fd off len (.err e)]) :=
      rfl
    rw [this, trace_chunks_append, trace_chunks_append, trace_chunks_eintr_events, hsel, hlast]
    rfl
  | starved =>
    obtain ⟨k, _, hevs⟩ := read_loop_starved_inv hr
    subst hevs
    have : Event.select fd rc :: eintr_events fd off len k
        = [Event.select fd rc] ++ eintr_events fd off len k := rfl
    rw [this, trace_chunks_append, trace_chunks_eintr_events, hsel]
    rfl

/-- Storing a chunk and then looking at the buffer around it. -/
theorem write_at_take_drop (buf : List byte) (off : Nat) (d : List byte)
    (h : off ≤ buf.length) (m : Nat) :
    (write_at buf off d).take (off + d.length) = buf.take off ++ d ∧
    (write_at buf off d).drop (off + d.length + m) = buf.drop (off + d.length + m) := by
  have hlen : (buf.take off ++ d).length = off + d.length := by
    simp [List.length_take, Nat.min_eq_left h]
  refine ⟨?_, ?_⟩
  · unfold write_at
    exact List.take_left' hlen
  · unfold write_at
    rw [← hlen, List.drop_append, hlen, List.drop_drop]

theorem length_write_at_ge (buf : List byte) (off : Nat) (d : List byte) (h : off ≤ buf.length) :
    off + d.length ≤ (write_at buf off d).length := by
  simp [write_at, List.length_take, Nat.min_eq_left h]

/-- The buffer at the end of the loop: the bytes before the starting offset,
then the chunks the reads of the trace returned, cut at the length to fetch,
then the bytes behind them, untouched. -/
theorem gather_loop_buffer (fd : Int) (sels : List Int) (reads : List ReadRes)
    (st : LoopState) (hbuf : st.off ≤ st.buffer.length) :
    (gather_loop fd sels reads st).st.buffer
      = st.buffer.take st.off
        ++ (trace_chunks (gather_loop fd sels reads st).trace).flatten.take st.length
        ++ st.buffer.drop (st.off
            + ((trace_chunks (gather_loop fd sels reads st).trace).flatten.take st.length).length) := by
  revert hbuf
  refine gather_loop_cases fd
    (fun _ _ st r => st.off ≤ st.buffer.length →
      r.st.buffer = st.buffer.take st.off ++ (trace_chunks r.trace).flatten.take st.length
        ++ st.buffer.drop (st.off + ((trace_chunks r.trace).flatten.take st.length).length))
    ?_ ?_ ?_ ?_ ?_ ?_ ?_ ?_ ?_ sels reads st
  · intro _ st _
    simp [trace_chunks]
  · intro sels reads st _ ih hb
    rw [trace_chunks_append, trace_chunks_timeout_events]
    simpa using ih hb
  · intro sels reads st _ _
    rw [trace_chunks_timeout_events]
    simp
  · intro sels reads st _ ih hb
    rw [trace_chunks_append]
    simpa [trace_chunks] using ih hb
  · intro sels reads st _ _
    simp [trace_chunks]
  · intro rc sels reads st evs _ _ hr _
    rw [trace_chunks_unready_pass hr (by simp)]
    simp
  · intro rc sels reads st evs e _ _ hr _
    rw [trace_chunks_unready_pass hr (by simp)]
    simp
  · intro rc sels reads st evs n buf1 rest _ _ hr hn _ ih hb
    obtain ⟨data, htc, hn', hb1, _, _⟩ := trace_chunks_ready_pass rc hr
    have hd : (data.take st.length).length = n := by
      rw [List.length_take]; omega
    have hb' : (st.advance n buf1).off ≤ (st.advance n buf1).buffer.length := by
      show st.off + n ≤ buf1.length
      rw [hb1, ← hd]
      exact length_write_at_ge _ _ _ hb
    have ih' := ih hb'
    rw [trace_chunks_append, htc]
    simp only [List.singleton_append, List.flatten_cons]
    rw [List.take_append_eq_append_take, List.length_append, hd]
    have hsub : st.length - data.length = st.length - n := by omega
    rw [hsub, ih']
    show buf1.take (st.off + n) ++ _ ++ buf1.drop (st.off + n + _) = _
    have hw := write_at_take_drop st.buffer st.off (data.take st.length) hb
      ((trace_chunks (gather_loop fd sels rest (st.advance n buf1)).trace).flatten.take
        (st.length - n)).length
    rw [hd, ← hb1] at hw
    have hlen' : (st.advance n buf1).length = st.length - n := rfl
    rw [hlen', hw.1, hw.2]
    simp [List.append_assoc, Nat.add_assoc]
  · intro rc sels reads st evs n buf1 rest _ _ hr hn hl hb
    obtain ⟨data, htc, hn', hb1, _, _⟩ := trace_chunks_ready_pass rc hr
    have hd : (data.take st.length).length = n := by
      rw [List.length_take]; omega
    rw [htc]
    simp only [List.flatten_cons, List.flatten_nil, List.append_nil]
    show buf1 = _
    rw [hb1, write_at]

theorem ready_zero : ready 0 = false := by decide

theorem ready_neg_one : ready (-1) = false := by decide

theorem ready_of_ne {rc : Int} (h0 : rc ≠ 0) (h1 : rc ≠ -1) : ready rc = true := by
  simp [ready, h0, h1]

theorem delivered_nil (reads : List ReadRes) : delivered [] reads = [] := by
  simp [delivered]

theorem delivered_unready {rc : Int} (h : ready rc = false) (sels : List Int)
    (reads : List ReadRes) : delivered (rc :: sels) reads = delivered sels reads := by
  simp [delivered, List.countP_cons, h]

theorem delivered_ready {rc : Int} (h : ready rc = true) (sels : List Int)
    {reads rest : List ReadRes} {data : List byte} (hc : chunks reads = data :: chunks rest) :
    delivered (rc :: sels) reads = data ++ delivered sels rest := by
  simp [delivered, List.countP_cons, h, hc]

theorem delivered_no_chunks (sels : List Int) {reads : List ReadRes} (hc : chunks reads = []) :
    delivered sels reads = [] := by
  simp [delivered, hc]

/-- When no read of the environment fails with an errno other than EINTR and
the reads admitted by the waits deliver at least the length to fetch, the loop
comes to its end, and the bytes it fetched are the first bytes delivered. -/
theorem gather_loop_returns (fd : Int) (sels : List Int) (reads : List ReadRes)
    (st : LoopState) (hreads : ∀ r ∈ reads, r.is_fatal = false)
    (hne : st.length = 0 → sels ≠ [] ∧ chunks reads ≠ [])
    (henough : st.length ≤ (delivered sels reads).length) :
    (gather_loop fd sels reads st).stop = none ∧
    (trace_chunks (gather_loop fd sels reads st).trace).flatten.take st.length
      = (delivered sels reads).take st.length := by
  revert hreads hne henough
  refine gather_loop_cases fd
    (fun sels reads st r => (∀ r ∈ reads, r.is_fatal = false) →
      (st.length = 0 → sels ≠ [] ∧ chunks reads ≠ []) →
      st.length ≤ (delivered sels reads).length →
      r.stop = none ∧
      (trace_chunks r.trace).flatten.take st.length = (delivered sels reads).take st.length)
    ?_ ?_ ?_ ?_ ?_ ?_ ?_ ?_ ?_ sels reads st
  · intro reads st _ hne hen
    rw [delivered_nil] at hen
    have h0 : st.length = 0 := by simpa using hen
    exact absurd rfl (hne h0).1
  · intro sels reads st hl ih hreads _ hen
    rw [delivered_unready ready_zero] at hen ⊢
    have := ih hreads (fun h => absurd h hl) hen
    rw [trace_chunks_append, trace_chunks_timeout_events]
    simpa using this
  · intro sels reads st hl _ _ _
    simp [hl]
  · intro sels reads st hl ih hreads _ hen
    rw [delivered_unready ready_neg_one] at hen ⊢
    have := ih hreads (fun h => absurd h hl) hen
    rw [trace_chunks_append]
    simpa [trace_chunks] using this
  · intro sels reads st hl _ _ _
    simp [hl]
  · intro rc sels reads st evs _ _ hr _ hne hen
    obtain ⟨k, hreads, _⟩ := read_loop_starved_inv hr
    have hc : chunks reads = [] := by
      rw [hreads]
      simp [chunks, List.filterMap_replicate_of_none]
    rw [delivered_no_chunks _ hc] at hen
    have h0 : st.length = 0 := by simpa using hen
    exact absurd hc (hne h0).2
  · intro rc sels reads st evs e _ _ hr hreads _ _
    obtain ⟨k, rest, hne, hrd, _⟩ := read_loop_failed_inv hr
    have := hreads (.err e) (by rw [hrd]; simp)
    simp [ReadRes.is_fatal, hne] at this
  · intro rc sels reads st evs n buf1 rest h0 h1 hr hn hl ih hreads _ hen
    obtain ⟨data, htc, hn', _, hc, hsub⟩ := trace_chunks_ready_pass rc hr
    rw [delivered_ready (ready_of_ne h0 h1) sels hc] at hen ⊢
    have hlen' : (st.advance n buf1).length = st.length - n := rfl
    have hen' : (st.advance n buf1).length ≤ (delivered sels rest).length := by
      rw [hlen']
      simp only [List.length_append] at hen
      omega
    have := ih (fun r hr' => hreads r (hsub r hr')) (fun h => absurd (hlen' ▸ h) hl) hen'
    refine ⟨this.1, ?_⟩
    rw [trace_chunks_append, htc]
    simp only [List.singleton_append, List.flatten_cons]
    rw [List.take_append_eq_append_take, List.take_append_eq_append_take]
    have hsubl : st.length - data.length = st.length - n := by omega
    rw [hsubl, ← hlen', this.2]
  · intro rc sels reads st evs n buf1 rest h0 h1 hr hn hl hreads _ hen
    obtain ⟨data, htc, hn', _, hc, _⟩ := trace_chunks_ready_pass rc hr
    rw [delivered_ready (ready_of_ne h0 h1) sels hc]
    refine ⟨rfl, ?_⟩
    rw [htc]
    simp only [List.flatten_cons, List.flatten_nil]
    rw [List.take_append_eq_append_take, List.take_append_eq_append_take]
    have hsubl : st.length - data.length = 0 := by omega
    rw [hsubl]
    simp

theorem gather_with_returns (env : Env) (s : Statics) (fd : Int) (pre : List Event)
    (buffer : List byte) (L : Nat) (hpre : trace_chunks pre = [])
    (hreads : ∀ r ∈ env.reads, r.is_fatal = false)
    (hresp : L = 0 → env.selects ≠ [] ∧ chunks env.reads ≠ [])
    (henough : L ≤ (delivered env.selects env.reads).length) :
    (gather_with env s fd pre buffer L).outcome
      = .returned 100 ((delivered env.selects env.reads).take L ++ buffer.drop L) ∧
    (trace_chunks (gather_with env s fd pre buffer L).trace).flatten.take L
      = (delivered env.selects env.reads).take L := by
  have hB := gather_loop_returns fd env.selects env.reads ⟨buffer, 0, L, false⟩ hreads hresp
    henough
  have hA := gather_loop_buffer fd env.selects env.reads ⟨buffer, 0, L, false⟩ (Nat.zero_le _)
  simp only at hA hB
  rw [gather_with_outcome, gather_with_trace, trace_chunks_append, hpre, hB.1]
  refine ⟨?_, by simpa using hB.2⟩
  rw [hA, hB.2]
  have hlen : ((delivered env.selects env.reads).take L).length = L := by
    rw [List.length_take]; omega
  simp [hlen]

/-- C1: for every requested length and level, when the acquisition of the
selected device does not fail, no read of the environment fails with an errno
other than EINTR, and the reads admitted by the waits deliver at least the
requested length (for length 0: the environment answers one wait and holds
one chunk), `gather_random` returns 100 and the buffer holds, in its first
`length` bytes, the chunks returned by the successive reads of the call in
order, exactly `length` of them, the bytes behind them being untouched. -/
theorem C1_gather_fills_buffer (cfg : Config) (env : Env) (s : Statics)
    (buffer : List byte) (L : Nat) (level : Int)
    (hacq : ¬ acquisition_fails cfg env s level)
    (hreads : ∀ r ∈ env.reads, r.is_fatal = false)
    (hresp : L = 0 → env.selects ≠ [] ∧ chunks env.reads ≠ [])
    (henough : L ≤ (delivered env.selects env.reads).length) :
    (gather_random cfg env s buffer L level).outcome
      = .returned 100
          ((trace_chunks (gather_random cfg env s buffer L level).trace).flatten.take L
            ++ buffer.drop L) ∧
    ((trace_chunks (gather_random cfg env s buffer L level).trace).flatten.take L).length = L ∧
    (trace_chunks (gather_random cfg env s buffer L level).trace).flatten.take L
      = (delivered env.selects env.reads).take L := by
  have hlen : ((delivered env.selects env.reads).take L).length = L := by
    rw [List.length_take]; omega
  rcases gather_random_cases cfg env s buffer L level with
    ⟨_, heq⟩ | ⟨_, hf, _⟩ | ⟨_, _, s1, minor, _, _, _, heq⟩
  · rw [heq]
    obtain ⟨h1, h2⟩ := gather_with_returns env s (s.handle (selected level)) [] buffer L
      (by simp [trace_chunks]) hreads hresp henough
    rw [h2]
    exact ⟨h1, hlen, rfl⟩
  · exact absurd hf hacq
  · rw [heq]
    obtain ⟨h1, h2⟩ := gather_with_returns env s1 (s1.handle (selected level))
      [.open_device (selected level) minor] buffer L
      (by simp [trace_chunks]) hreads hresp henough
    rw [h2]
    exact ⟨h1, hlen, rfl⟩

/-- C1 at the scenario of the specification: 32 bytes at level 0 from a
device that delivers 10 bytes, a timeout and 22 bytes.  The call returns 100
with the 32 bytes in their order, after exactly two reads that returned data
and one notice. -/
theorem C1_gather_fills_buffer_witness :
    (gather_random ⟨false, false⟩ ⟨fun _ => ⟨3, 0, true⟩, [1, 0, 1],
        [.ok (List.range 10), .ok (List.range' 10 22)]⟩ Statics.init (List.replicate 32 0) 32 0
      ).outcome = .returned 100 (List.range 32) ∧
    (gather_random ⟨false, false⟩ ⟨fun _ => ⟨3, 0, true⟩, [1, 0, 1],
        [.ok (List.range 10), .ok (List.range' 10 22)]⟩ Statics.init (List.replicate 32 0) 32 0
      ).trace.countP Event.is_ok_read = 2 ∧
    (gather_random ⟨false, false⟩ ⟨fun _ => ⟨3, 0, true⟩, [1, 0, 1],
        [.ok (List.range 10), .ok (List.range' 10 22)]⟩ Statics.init (List.replicate 32 0) 32 0
      ).trace.countP Event.is_notice = 1 :=
  ⟨(C1_gather_fills_buffer ⟨false, false⟩ ⟨fun _ => ⟨3, 0, true⟩, [1, 0, 1],
        [.ok (List.range 10), .ok (List.range' 10 22)]⟩ Statics.init (List.replicate 32 0) 32 0
      (by simp [acquisition_fails, selected]) (by decide) (by decide) (by decide)).1,
   by decide, by decide⟩

theorem countP_read_eintr_events (fd : Int) (off len k : Nat) :
    (eintr_events fd off len k).countP Event.is_read = k := by
  induction k with
  | zero => simp [eintr_events]
  | succ k ih =>
    simp only [eintr_events, List.replicate_succ] at ih ⊢
    rw [List.countP_cons, ih]
    simp [Event.is_read]

theorem countP_read_ok_events (fd : Int) (off len : Nat) (data : List byte) :
    (ok_events fd off len data).countP Event.is_read = 1 := by
  simp only [ok_events]
  split <;> simp [List.countP_cons, Event.is_read]

/-- With a positive length to fetch, waits that all report the device
readable, reads that all return at least one byte, and answers for as many
waits and reads as bytes are to be fetched, the loop comes to its end after
at most that many reads. -/
theorem gather_loop_progress (fd : Int) (sels : List Int) (reads : List ReadRes)
    (st : LoopState) (hpos : st.length ≠ 0)
    (hsel : ∀ rc ∈ sels, ready rc = true)
    (hreads : ∀ r ∈ reads, ∃ data, r = .ok data ∧ data ≠ [])
    (hls : st.length ≤ sels.length) (hlr : st.length ≤ reads.length) :
    (gather_loop fd sels reads st).stop = none ∧
    (gather_loop fd sels reads st).trace.countP Event.is_read ≤ st.length := by
  revert hpos hsel hreads hls hlr
  refine gather_loop_cases fd
    (fun sels reads st r => st.length ≠ 0 → (∀ rc ∈ sels, ready rc = true) →
      (∀ r ∈ reads, ∃ data, r = .ok data ∧ data ≠ []) →
      st.length ≤ sels.length → st.length ≤ reads.length →
      r.stop = none ∧ r.trace.countP Event.is_read ≤ st.length)
    ?_ ?_ ?_ ?_ ?_ ?_ ?_ ?_ ?_ sels reads st
  · intro reads st hpos _ _ hls _
    simp at hls
    exact absurd hls hpos
  · intro sels reads st _ _ _ hsel _ _ _
    have := hsel 0 (by simp)
    rw [ready_zero] at this; simp at this
  · intro sels reads st hl hpos; exact absurd hl hpos
  · intro sels reads st _ _ _ hsel _ _ _
    have := hsel (-1) (by simp)
    rw [ready_neg_one] at this; simp at this
  · intro sels reads st hl hpos; exact absurd hl hpos
  · intro rc sels reads st evs _ _ hr hpos _ hreads _ hlr
    obtain ⟨k, hrd, _⟩ := read_loop_starved_inv hr
    have hk : k ≠ 0 := by
      rintro rfl
      rw [hrd] at hlr
      simp at hlr
      exact hpos hlr
    obtain ⟨data, hd, _⟩ := hreads (.err EINTR) (by rw [hrd]; simp [List.mem_replicate, hk])
    cases hd
  · intro rc sels reads st evs e _ _ hr _ _ hreads _ _
    obtain ⟨k, rest, _, hrd, _⟩ := read_loop_failed_inv hr
    obtain ⟨data, hd, _⟩ := hreads (.err e) (by rw [hrd]; simp)
    cases hd
  · intro rc sels reads st evs n buf1 rest _ _ hr hn hl ih hpos hsel hreads hls hlr
    obtain ⟨k, data, hrd, hevs, hn', _⟩ := read_loop_done_inv hr
    have hk : k = 0 := by
      by_contra hk
      obtain ⟨data, hd, _⟩ := hreads (.err EINTR) (by rw [hrd]; simp [List.mem_replicate, hk])
      cases hd
    subst hk
    obtain ⟨d, hd, hdne⟩ := hreads (.ok data) (by rw [hrd]; simp)
    have hdd : data = d := by cases hd; rfl
    subst hdd
    have hdl : 1 ≤ data.length := List.length_pos.2 hdne
    have hlen' : (st.advance n buf1).length = st.length - n := rfl
    rw [hrd] at hlr hreads
    simp only [List.replicate_zero, List.nil_append, List.length_cons] at hlr hreads
    simp only [List.length_cons] at hls
    have := ih (by rw [hlen']; exact hl) (fun rc h => hsel rc (List.mem_cons_of_mem _ h))
      (fun r h => hreads r (List.mem_cons_of_mem _ h)) (by rw [hlen']; omega)
      (by rw [hlen']; omega)
    refine ⟨this.1, ?_⟩
    rw [hevs, List.countP_append, List.countP_cons, List.countP_append,
      countP_read_eintr_events, countP_read_ok_events]
    have h2 := this.2
    rw [hlen'] at h2
    simp only [Event.is_read]
    simp
    omega
  · intro rc sels reads st evs n buf1 rest _ _ hr hn hl hpos hsel hreads _ _
    obtain ⟨k, data, hrd, hevs, hn', _⟩ := read_loop_done_inv hr
    have hk : k = 0 := by
      by_contra hk
      obtain ⟨data, hd, _⟩ := hreads (.err EINTR) (by rw [hrd]; simp [List.mem_replicate, hk])
      cases hd
    subst hk
    refine ⟨rfl, ?_⟩
    rw [hevs, List.countP_cons, List.countP_append,
      countP_read_eintr_events, countP_read_ok_events]
    simp only [Event.is_read]
    simp
    omega

/-- The reads of a pass are made with the offset and the length of the pass. -/
theorem ready_pass_reads {fd : Int} (rc : Int) {buf : List byte} {off len : Nat} {reads : List ReadRes}
    {evs : List Event} {res : ReadLoopRes}
    (hr : read_loop fd buf off len reads = (evs, res)) :
    ∀ e ∈ Event.select fd rc :: evs, ∀ f o c r, e = .read f o c r →
      f = fd ∧ o = off ∧ c = len := by
  intro e he f o c r heq
  rcases List.mem_cons.1 he with h | h
  · simp [h] at heq
  · obtain ⟨k, hk⟩ := read_loop_shape fd buf off len reads
    have hcases : e = .read fd off len (.err EINTR) ∨ (∃ e1, e = .read fd off len (.err e1)) ∨
        (∃ data, e = .read fd off len (.ok data) ∨ e = .bogus data.length) := by
      rcases hk with ⟨_, h2⟩ | ⟨e1, rest, _, _, h2⟩ | ⟨data, rest, _, h2⟩
      · rw [hr] at h2
        simp only [Prod.mk.injEq] at h2
        rw [h2.1] at h
        exact Or.inl (mem_eintr_events h)
      · rw [hr] at h2
        simp only [Prod.mk.injEq] at h2
        rw [h2.1] at h
        rcases List.mem_append.1 h with h | h
        · exact Or.inl (mem_eintr_events h)
        · simp at h; exact Or.inr (Or.inl ⟨e1, h⟩)
      · rw [hr] at h2
        simp only [Prod.mk.injEq] at h2
        rw [h2.1] at h
        rcases List.mem_append.1 h with h | h
        · exact Or.inl (mem_eintr_events h)
        · exact Or.inr (Or.inr ⟨data, mem_ok_events h⟩)
    rcases hcases with h | ⟨e1, h⟩ | ⟨data, h | h⟩
    · rw [h] at heq; simp at heq; omega
    · rw [h] at heq; simp at heq; omega
    · rw [h] at heq; simp at heq; omega
    · rw [h] at heq; simp at heq

/-- With a positive length to fetch, every read of the loop asks for at least
one byte. -/
theorem gather_loop_read_count_pos (fd : Int) (sels : List Int) (reads : List ReadRes)
    (st : LoopState) (hpos : st.length ≠ 0) :
    ∀ e ∈ (gather_loop fd sels reads st).trace, ∀ f o c res, e = .read f o c res → 1 ≤ c := by
  revert hpos
  refine gather_loop_cases fd
    (fun _ _ st r => st.length ≠ 0 →
      ∀ e ∈ r.trace, ∀ f o c res, e = .read f o c res → 1 ≤ c)
    ?_ ?_ ?_ ?_ ?_ ?_ ?_ ?_ ?_ sels reads st
  · intro _ _ _ e he; simp at he
  · intro sels reads st hl ih _ e he f o c res heq
    rcases List.mem_append.1 he with h | h
    · rcases mem_timeout_events h with h | h <;> simp [h] at heq
    · exact ih hl e h f o c res heq
  · intro sels reads st hl hpos; exact absurd hl hpos
  · intro sels reads st hl ih _ e he f o c res heq
    rcases List.mem_append.1 he with h | h
    · simp at h
      rcases h with h | h <;> simp [h] at heq
    · exact ih hl e h f o c res heq
  · intro sels reads st hl hpos; exact absurd hl hpos
  · intro rc sels reads st evs _ _ hr hpos e he f o c res heq
    have := (ready_pass_reads rc hr e he f o c res heq).2.2
    omega
  · intro rc sels reads st evs e0 _ _ hr hpos e he f o c res heq
    have := (ready_pass_reads rc hr e he f o c res heq).2.2
    omega
  · intro rc sels reads st evs n buf1 rest _ _ hr _ hl ih hpos e he f o c res heq
    rcases List.mem_append.1 he with h | h
    · have := (ready_pass_reads rc hr e h f o c res heq).2.2
      omega
    · exact ih hl e h f o c res heq
  · intro rc sels reads st evs n buf1 rest _ _ hr _ _ hpos e he f o c res heq
    have := (ready_pass_reads rc hr e he f o c res heq).2.2
    omega

/-- C10: in a pass of the loop of `gather_random` the remaining length is
unchanged by a timeout, by a failed wait and by a read that returns zero
bytes, a read that fails with EINTR is followed by the next read with the
same arguments, and the remaining length strictly decreases in a pass whose
read returns at least one byte while a positive length remains; for a
requested length L >= 1 every read is made with a positive remaining length,
and if every wait reports the device readable and every read returns at
least one byte (the environment answering L waits and L reads), the call
is not left waiting and makes at most L reads, and it returns 100 unless the
acquisition of the device fails. -/
theorem C10_progress_and_termination (cfg : Config) (env : Env) (s : Statics)
    (buffer : List byte) (L : Nat) (level : Int) :
    (∀ (fd : Int) (reads : List ReadRes) (st : LoopState),
      ∃ st1, (loop_body fd 0 reads st).2 = .cond st1 reads ∧ st1.length = st.length) ∧
    (∀ (fd : Int) (reads : List ReadRes) (st : LoopState),
      ∃ st1, (loop_body fd (-1) reads st).2 = .cond st1 reads ∧ st1.length = st.length) ∧
    (∀ (fd : Int) (buf : List byte) (off len : Nat) (rest : List ReadRes),
      (read_loop fd buf off len (.err EINTR :: rest)).2 = (read_loop fd buf off len rest).2) ∧
    (∀ (fd rc : Int) (rest : List ReadRes) (st : LoopState), rc ≠ 0 → rc ≠ -1 →
      ∃ st1, (loop_body fd rc (.ok [] :: rest) st).2 = .cond st1 rest ∧
        st1.length = st.length) ∧
    (∀ (fd rc : Int) (data : List byte) (rest : List ReadRes) (st : LoopState),
      rc ≠ 0 → rc ≠ -1 → data ≠ [] → st.length ≠ 0 →
      ∃ st1, (loop_body fd rc (.ok data :: rest) st).2 = .cond st1 rest ∧
        st1.length < st.length) ∧
    (1 ≤ L → ∀ e ∈ (gather_random cfg env s buffer L level).trace, ∀ f o c res,
      e = .read f o c res → 1 ≤ c) ∧
    (1 ≤ L → (∀ rc ∈ env.selects, rc ≠ 0 ∧ rc ≠ -1) →
      (∀ r ∈ env.reads, ∃ data, r = .ok data ∧ data ≠ []) →
      L ≤ env.selects.length → L ≤ env.reads.length →
      (gather_random cfg env s buffer L level).outcome ≠ .stopped .blocked ∧
      (gather_random cfg env s buffer L level).trace.countP Event.is_read ≤ L ∧
      (¬ acquisition_fails cfg env s level →
        ∃ buf1, (gather_random cfg env s buffer L level).outcome = .returned 100 buf1)) := by
  refine ⟨?_, ?_, ?_, ?_, ?_, ?_, ?_⟩
  · intro fd reads st
    exact ⟨{ st with warn := true }, by simp [loop_body], rfl⟩
  · intro fd reads st
    exact ⟨st, by simp [loop_body], rfl⟩
  · intro fd buf off len rest
    simp [read_loop]
  · intro fd rc rest st h0 h1
    refine ⟨st.advance 0 (write_at st.buffer st.off []), ?_, rfl⟩
    simp [loop_body, h0, h1, read_loop, LoopState.advance]
  · intro fd rc data rest st h0 h1 hd hl
    have hdl : 1 ≤ data.length := List.length_pos.2 hd
    by_cases hgt : data.length > st.length
    · refine ⟨st.advance st.length (write_at st.buffer st.off (data.take st.length)), ?_, ?_⟩
      · simp [loop_body, h0, h1, read_loop, hgt, LoopState.advance]
      · show st.length - st.length < st.length
        omega
    · refine ⟨st.advance data.length (write_at st.buffer st.off (data.take st.length)), ?_, ?_⟩
      · have hle : data.length ≤ st.length := by omega
        simp [loop_body, h0, h1, read_loop, hgt, hle, LoopState.advance]
      · show st.length - data.length < st.length
        omega
  · intro hL e he f o c res heq
    have hpos : (⟨buffer, 0, L, false⟩ : LoopState).length ≠ 0 := by
      show L ≠ 0
      omega
    rcases gather_random_cases cfg env s buffer L level with
      ⟨_, h⟩ | ⟨_, _, f1, minor, h⟩ | ⟨_, _, s1, minor, _, _, _, h⟩
    · rw [h, gather_with_trace] at he
      simp only [List.nil_append] at he
      exact gather_loop_read_count_pos _ _ _ _ hpos e he f o c res heq
    · rw [h] at he
      simp at he
      simp [he] at heq
    · rw [h, gather_with_trace] at he
      rcases List.mem_append.1 he with h' | h'
      · simp at h'
        simp [h'] at heq
      · exact gather_loop_read_count_pos _ _ _ _ hpos e h' f o c res heq
  · intro hL hsel hreads hls hlr
    have hpos : (⟨buffer, 0, L, false⟩ : LoopState).length ≠ 0 := by
      show L ≠ 0
      omega
    have hsel' : ∀ rc ∈ env.selects, ready rc = true :=
      fun rc h => ready_of_ne (hsel rc h).1 (hsel rc h).2
    have key : ∀ (s1 : Statics) (fd : Int) (pre : List Event),
        pre.countP Event.is_read = 0 →
        (gather_with env s1 fd pre buffer L).outcome ≠ .stopped .blocked ∧
        (gather_with env s1 fd pre buffer L).trace.countP Event.is_read ≤ L ∧
        ∃ buf1, (gather_with env s1 fd pre buffer L).outcome = .returned 100 buf1 := by
      intro s1 fd pre hpre
      have h := gather_loop_progress fd env.selects env.reads ⟨buffer, 0, L, false⟩ hpos hsel'
        hreads hls hlr
      rw [gather_with_outcome, gather_with_trace, h.1, List.countP_append, hpre]
      refine ⟨by simp, ?_, ⟨_, rfl⟩⟩
      simpa using h.2
    rcases gather_random_cases cfg env s buffer L level with
      ⟨_, h⟩ | ⟨_, hf, f1, minor, h⟩ | ⟨_, _, s1, minor, _, _, _, h⟩
    · rw [h]
      obtain ⟨k1, k2, k3⟩ := key s (s.handle (selected level)) [] (by simp)
      exact ⟨k1, k2, fun _ => k3⟩
    · rw [h]
      exact ⟨by simp, by simp [Event.is_read], fun hn => absurd hf hn⟩
    · rw [h]
      obtain ⟨k1, k2, k3⟩ := key s1 (s1.handle (selected level))
        [.open_device (selected level) minor] (by simp [Event.is_read])
      exact ⟨k1, k2, fun _ => k3⟩

/-- C10 at a device that is always readable and delivers one byte per read:
three bytes are fetched with three reads. -/
theorem C10_progress_and_termination_witness :
    (1 ≤ 3) ∧
    (gather_random ⟨false, false⟩ ⟨fun _ => ⟨3, 0, true⟩, [1, 1, 1], [.ok [7], .ok [8], .ok [9]]⟩
        Statics.init [0, 0, 0] 3 0).outcome ≠ .stopped .blocked ∧
    (gather_random ⟨false, false⟩ ⟨fun _ => ⟨3, 0, true⟩, [1, 1, 1], [.ok [7], .ok [8], .ok [9]]⟩
        Statics.init [0, 0, 0] 3 0).trace.countP Event.is_read ≤ 3 ∧
    (gather_random ⟨false, false⟩ ⟨fun _ => ⟨3, 0, true⟩, [1, 1, 1], [.ok [7], .ok [8], .ok [9]]⟩
        Statics.init [0, 0, 0] 3 0).outcome = .returned 100 [7, 8, 9] :=
  ⟨by decide,
   ((C10_progress_and_termination ⟨false, false⟩
      ⟨fun _ => ⟨3, 0, true⟩, [1, 1, 1], [.ok [7], .ok [8], .ok [9]]⟩
      Statics.init [0, 0, 0] 3 0).2.2.2.2.2.2 (by decide) (by decide) (by simp) (by decide)
      (by decide)).1,
   ((C10_progress_and_termination ⟨false, false⟩
      ⟨fun _ => ⟨3, 0, true⟩, [1, 1, 1], [.ok [7], .ok [8], .ok [9]]⟩
      Statics.init [0, 0, 0] 3 0).2.2.2.2.2.2 (by decide) (by decide) (by simp) (by decide)
      (by decide)).2.1,
   by decide⟩

theorem countP_opens_loop (fd : Int) (sels : List Int) (reads : List ReadRes) (st : LoopState)
    (name : DevName) : (gather_loop fd sels reads st).trace.countP (Event.opens name) = 0 := by
  rw [List.countP_eq_zero]
  intro e he
  have := (gather_loop_on_fd fd sels reads st e he).2
  cases e <;> simp_all [Event.opens, Event.is_open]

/-- What one call does to the handle of a device path: it does not open the
path and keeps a stored handle, or the path had no handle, is opened once,
and has a handle other than -1 when the call returns. -/
theorem gather_random_opens (cfg : Config) (env : Env) (s : Statics) (buffer : List byte)
    (L : Nat) (level : Int) (name : DevName) :
    ((gather_random cfg env s buffer L level).trace.countP (Event.opens name) = 0 ∧
      (gather_random cfg env s buffer L level).statics.handle name = s.handle name) ∨
    (s.handle name = -1 ∧
      (gather_random cfg env s buffer L level).trace.countP (Event.opens name) = 1 ∧
      (∀ ret b, (gather_random cfg env s buffer L level).outcome = .returned ret b →
        (gather_random cfg env s buffer L level).statics.handle name ≠ -1)) := by
  rcases gather_random_cases cfg env s buffer L level with
    ⟨_, h⟩ | ⟨hs, _, f1, minor, h⟩ | ⟨hs, _, s1, minor, hfd, hne, hother, h⟩
  · left
    rw [h, gather_with_trace, gather_with_statics]
    exact ⟨by simpa using countP_opens_loop _ _ _ _ name, rfl⟩
  · by_cases hn : name = selected level
    · right
      subst hn
      rw [h]
      exact ⟨hs, by simp [Event.opens], by simp⟩
    · left
      rw [h]
      refine ⟨?_, rfl⟩
      simp [Event.opens]
      exact fun h' => hn h'.symm
  · by_cases hn : name = selected level
    · right
      subst hn
      rw [h, gather_with_trace, gather_with_statics, List.countP_append, countP_opens_loop]
      exact ⟨hs, by simp [Event.opens], fun _ _ _ => by rw [hfd]; exact hne⟩
    · left
      rw [h, gather_with_trace, gather_with_statics, List.countP_append, countP_opens_loop]
      refine ⟨?_, hother name hn⟩
      simp [Event.opens]
      exact fun h' => hn h'.symm

/-- Across the calls of a process a device path is opened at most once, and
not at all when its handle is stored at the start. -/
theorem process_trace_opens (cfg : Config) (s : Statics) (calls : List Call) (name : DevName) :
    (process_trace cfg s calls).countP (Event.opens name) ≤ 1 ∧
    (s.handle name ≠ -1 → (process_trace cfg s calls).countP (Event.opens name) = 0) := by
  induction calls generalizing s with
  | nil => simp [process_trace]
  | cons c cs ih =>
    simp only [process_trace]
    rcases gather_random_opens cfg c.env s c.buffer c.r_length c.level name with
      ⟨h0, hkeep⟩ | ⟨hs, h1, hret⟩
    · cases hout : (gather_random cfg c.env s c.buffer c.r_length c.level).outcome with
      | returned ret b =>
        simp only [List.countP_append, h0, Nat.zero_add]
        refine ⟨(ih _).1, fun hne => (ih _).2 ?_⟩
        rw [hkeep]; exact hne
      | stopped x =>
        simp only [h0]
        exact ⟨by omega, fun _ => trivial⟩
    · cases hout : (gather_random cfg c.env s c.buffer c.r_length c.level).outcome with
      | returned ret b =>
        simp only [List.countP_append, h1]
        have := (ih (gather_random cfg c.env s c.buffer c.r_length c.level).statics).2
          (hret ret b hout)
        rw [this]
        exact ⟨by omega, fun hne => absurd hs hne⟩
      | stopped x =>
        simp only [h1]
        exact ⟨by omega, fun hne => absurd hs hne⟩

/-- C6: across every sequence of calls of `gather_random`, with arbitrary
levels, lengths and environments, each device path is opened at most once,
and not at all when its handle is stored at the start; a call at a tier whose
handle is stored (a value other than -1) leaves the static variables as they
are, does not call `open_device` and makes every wait and read on that
handle; no call changes a stored handle of either tier; and a call that
returns leaves a handle other than -1 stored for its tier.  The code has no
call that closes a descriptor. -/
theorem C6_open_at_most_once (cfg : Config) :
    (∀ (s : Statics) (calls : List Call) (name : DevName),
      (process_trace cfg s calls).countP (Event.opens name) ≤ 1 ∧
      (s.handle name ≠ -1 → (process_trace cfg s calls).countP (Event.opens name) = 0)) ∧
    (∀ (env : Env) (s : Statics) (buffer : List byte) (L : Nat) (level : Int),
      s.handle (selected level) ≠ -1 →
      (gather_random cfg env s buffer L level).statics = s ∧
      (∀ e ∈ (gather_random cfg env s buffer L level).trace, e.is_open = false) ∧
      (∀ e ∈ (gather_random cfg env s buffer L level).trace,
        e.on_fd (s.handle (selected level)) = true)) ∧
    (∀ (env : Env) (s : Statics) (buffer : List byte) (L : Nat) (level : Int) (name : DevName),
      s.handle name ≠ -1 →
      (gather_random cfg env s buffer L level).statics.handle name = s.handle name) ∧
    (∀ (env : Env) (s : Statics) (buffer : List byte) (L : Nat) (level : Int) ret b,
      (gather_random cfg env s buffer L level).outcome = .returned ret b →
      (gather_random cfg env s buffer L level).statics.handle (selected level) ≠ -1) := by
  refine ⟨fun s calls name => process_trace_opens cfg s calls name, ?_, ?_, ?_⟩
  · intro env s buffer L level hs
    rcases gather_random_cases cfg env s buffer L level with
      ⟨_, h⟩ | ⟨hs', _⟩ | ⟨hs', _⟩
    · rw [h, gather_with_trace, gather_with_statics]
      simp only [List.nil_append]
      exact ⟨trivial, fun e he => (gather_loop_on_fd _ _ _ _ e he).2,
        fun e he => (gather_loop_on_fd _ _ _ _ e he).1⟩
    · exact absurd hs' hs
    · exact absurd hs' hs
  · intro env s buffer L level name hs
    rcases gather_random_opens cfg env s buffer L level name with ⟨_, h⟩ | ⟨hs', _⟩
    · exact h
    · exact absurd hs' hs
  · intro env s buffer L level ret b hout
    rcases gather_random_opens cfg env s buffer L level (selected level) with
      ⟨_, h⟩ | ⟨_, _, h⟩
    · rw [h]
      rcases gather_random_cases cfg env s buffer L level with
        ⟨h', _⟩ | ⟨_, _, f1, minor, h'⟩ | ⟨_, _, s1, minor, hfd, hne, _, h'⟩
      · exact h'
      · rw [h'] at hout; simp at hout
      · rw [h', gather_with_statics, hfd] at h
        rw [← h]; exact hne
    · exact h ret b hout

/-- C6 at a process that calls at level 0, level 2, level 0 and level 1: the
fast device is opened once and the three calls at its tier use the one
descriptor 3; the second call at the tier finds the handle stored. -/
theorem C6_open_at_most_once_witness :
    (process_trace ⟨false, false⟩ Statics.init
      [⟨⟨fun _ => ⟨3, 0, true⟩, [1], [.ok [1]]⟩, [0], 1, 0⟩,
       ⟨⟨fun _ => ⟨4, 0, true⟩, [1], [.ok [2]]⟩, [0], 1, 2⟩,
       ⟨⟨fun _ => ⟨5, 0, true⟩, [1], [.ok [3]]⟩, [0], 1, 0⟩,
       ⟨⟨fun _ => ⟨6, 0, true⟩, [1], [.ok [4]]⟩, [0], 1, 1⟩]).countP
        (Event.opens .NAME_OF_DEV_URANDOM) ≤ 1 ∧
    (gather_random ⟨false, false⟩ ⟨fun _ => ⟨5, 0, true⟩, [1], [.ok [3]]⟩ ⟨3, 4⟩ [0] 1 0).statics
      = ⟨3, 4⟩ :=
  ⟨((C6_open_at_most_once ⟨false, false⟩).1 Statics.init
      [⟨⟨fun _ => ⟨3, 0, true⟩, [1], [.ok [1]]⟩, [0], 1, 0⟩,
       ⟨⟨fun _ => ⟨4, 0, true⟩, [1], [.ok [2]]⟩, [0], 1, 2⟩,
       ⟨⟨fun _ => ⟨5, 0, true⟩, [1], [.ok [3]]⟩, [0], 1, 0⟩,
       ⟨⟨fun _ => ⟨6, 0, true⟩, [1], [.ok [4]]⟩, [0], 1, 1⟩] .NAME_OF_DEV_URANDOM).1,
   ((C6_open_at_most_once ⟨false, false⟩).2.1 ⟨fun _ => ⟨5, 0, true⟩, [1], [.ok [3]]⟩ ⟨3, 4⟩ [0] 1 0
      (by decide)).1⟩

/-- Outside the table the enumeration returns NULL and writes nothing. -/
theorem enum_outside (what seq cls vers : Int) (h : seq < 0 ∨ 1 ≤ seq) :
    gnupgext_enum_func what seq cls vers = ⟨none, seq, cls, vers⟩ := by
  have h' : seq ≥ (func_table.length : Int) ∨ seq < 0 := by
    simp [func_table]; omega
  rw [gnupgext_enum_func, enum_loop]
  simp [h']

/-- At cursor 0 a request for any class or for class 40 finds the entry. -/
theorem enum_match (what cls vers : Int) (h : what = 0 ∨ what = 40) :
    gnupgext_enum_func what 0 cls vers = ⟨some .gather_random, 1, 40, 1⟩ := by
  rw [gnupgext_enum_func, enum_loop]
  rcases h with h | h <;> simp [func_table, h]

/-- At cursor 0 a request for another class runs off the table: NULL, the
cursor unchanged, class and version of the entry passed over left behind. -/
theorem enum_no_match (what cls vers : Int) (h0 : what ≠ 0) (h40 : what ≠ 40) :
    gnupgext_enum_func what 0 cls vers = ⟨none, 0, 40, 1⟩ := by
  rw [gnupgext_enum_func, enum_loop]
  simp [func_table, h0, h40]
  rw [enum_loop]
  simp

/-- C9: with cursor 0 and `what` 0 (any) or 40, `gnupgext_enum_func` returns
the `gather_random` entry with class 40 and version 1 and sets the cursor to
1; for every cursor outside the table (negative or >= 1) and for every
non-zero `what` that matches no entry it returns NULL; the cursor is strictly
larger after a non-NULL return and unchanged after a NULL return. -/
theorem C9_enum_func (what seq cls vers : Int) :
    ((what = 0 ∨ what = 40) →
      gnupgext_enum_func what 0 cls vers = ⟨some .gather_random, 1, 40, 1⟩) ∧
    ((seq < 0 ∨ 1 ≤ seq) → (gnupgext_enum_func what seq cls vers).ret = none) ∧
    (what ≠ 0 → (∀ e ∈ func_table, e.cls ≠ what) →
      (gnupgext_enum_func what seq cls vers).ret = none) ∧
    ((gnupgext_enum_func what seq cls vers).ret ≠ none →
      seq < (gnupgext_enum_func what seq cls vers).sequence) ∧
    ((gnupgext_enum_func what seq cls vers).ret = none →
      (gnupgext_enum_func what seq cls vers).sequence = seq) := by
  have hout : (seq < 0 ∨ 1 ≤ seq) →
      gnupgext_enum_func what seq cls vers = ⟨none, seq, cls, vers⟩ :=
    enum_outside what seq cls vers
  refine ⟨enum_match what cls vers, ?_, ?_, ?_, ?_⟩
  · intro h
    rw [hout h]
  · intro h0 hno
    have h40 : what ≠ 40 := by
      intro h
      exact hno ⟨40, 1, .gather_random⟩ (by simp [func_table]) h.symm
    by_cases hs : seq = 0
    · subst hs
      rw [enum_no_match what cls vers h0 h40]
    · rw [hout (by omega)]
  · intro hret
    by_cases hs : seq = 0
    · subst hs
      by_cases hm : what = 0 ∨ what = 40
      · rw [enum_match what cls vers hm]
        decide
      · rw [enum_no_match what cls vers (fun h => hm (Or.inl h)) (fun h => hm (Or.inr h))] at hret
        exact absurd rfl hret
    · rw [hout (by omega)] at hret
      exact absurd rfl hret
  · intro hret
    by_cases hs : seq = 0
    · subst hs
      by_cases hm : what = 0 ∨ what = 40
      · rw [enum_match what cls vers hm] at hret
        simp at hret
      · rw [enum_no_match what cls vers (fun h => hm (Or.inl h)) (fun h => hm (Or.inr h))]
    · rw [hout (by omega)]

/-- C9 at the requests the host makes: class 40 at cursor 0 finds
`gather_random`, the cursor 1 it leaves is outside the table, and class 41
finds nothing. -/
theorem C9_enum_func_witness :
    gnupgext_enum_func 40 0 0 0 = ⟨some .gather_random, 1, 40, 1⟩ ∧
    (gnupgext_enum_func 40 1 40 1).ret = none ∧
    (gnupgext_enum_func 41 0 0 0).ret = none :=
  ⟨(C9_enum_func 40 0 0 0).1 (Or.inr rfl),
   (C9_enum_func 40 1 40 1).2.1 (Or.inr (by decide)),
   (C9_enum_func 41 0 0 0).2.2.1 (by decide) (by simp [func_table])⟩

/-- Reads that fail with EINTR in front of the answers are passed over. -/
theorem read_loop_eintr_prefix (fd : Int) (buf : List byte) (off len k : Nat)
    (rs : List ReadRes) :
    read_loop fd buf off len (List.replicate k (.err EINTR) ++ rs)
      = (eintr_events fd off len k ++ (read_loop fd buf off len rs).1,
          (read_loop fd buf off len rs).2) := by
  induction k with
  | zero => simp [eintr_events]
  | succ k ih =>
    have h : read_loop fd buf off len
        (List.replicate (k + 1) (.err EINTR) ++ rs)
        = (.read fd off len (.err EINTR) ::
            (read_loop fd buf off len (List.replicate k (.err EINTR) ++ rs)).1,
          (read_loop fd buf off len (List.replicate k (.err EINTR) ++ rs)).2) := by
      simp [List.replicate_succ, read_loop]
    rw [h, ih]
    simp [eintr_events, List.replicate_succ]

theorem countP_select_eintr_events (fd : Int) (off len k : Nat) :
    (eintr_events fd off len k).countP Event.is_select = 0 := by
  rw [List.countP_eq_zero]
  intro e he
  simp [mem_eintr_events he, Event.is_select]

/-- With nothing to fetch the loop waits once, if the environment answers a
wait at all. -/
theorem gather_loop_zero_selects (fd : Int) (sels : List Int) (reads : List ReadRes)
    (st : LoopState) (hz : st.length = 0) :
    (gather_loop fd sels reads st).trace.countP Event.is_select
      = if sels = [] then 0 else 1 := by
  cases sels with
  | nil => simp [gather_loop]
  | cons rc sels =>
    have hq : ∀ evs : List Event, (∀ e ∈ evs, e.is_select = false) →
        (Event.select fd rc :: evs).countP Event.is_select = 1 := by
      intro evs h
      rw [List.countP_cons, List.countP_eq_zero.2 (fun e he => by simp [h e he])]
      simp [Event.is_select]
    have hrl : ∀ e ∈ (read_loop fd st.buffer st.off st.length reads).1, e.is_select = false :=
      fun e he => (read_loop_events_quiet fd st.buffer st.off st.length reads e he).2.2
    simp only [reduceCtorEq, if_false]
    by_cases h0 : rc = 0
    · subst h0
      by_cases hw : st.warn = true <;>
        simp [gather_loop, loop_body, hz, hw, List.countP_cons, Event.is_select]
    · by_cases h1 : rc = -1
      · subst h1
        simp [gather_loop, loop_body, hz, List.countP_cons, Event.is_select]
      · rcases hr : read_loop fd st.buffer st.off st.length reads with ⟨evs, res⟩
        rw [hr] at hrl
        cases res with
        | starved =>
          simp only [gather_loop, loop_body, h0, h1, hr, if_false]
          exact hq evs hrl
        | failed e =>
          simp only [gather_loop, loop_body, h0, h1, hr, if_false]
          exact hq evs hrl
        | done n buf1 rest =>
          have hn : n ≤ st.length :=
            read_loop_done_le fd st.buffer st.off st.length reads n buf1 rest (by rw [hr])
          have hn0 : st.length - n = 0 := by omega
          simp only [gather_loop, loop_body, h0, h1, hr, if_false, hn, if_true, hn0, ne_eq,
            not_true_eq_false]
          exact hq evs hrl

/-- The run of the loop for the length 0, the device being acquired. -/
theorem gather_with_zero (env : Env) (s1 : Statics) (fd : Int) (pre : List Event)
    (buffer : List byte) (hsel : pre.countP Event.is_select = 0)
    (hrd : pre.countP Event.is_read = 0) :
    ((gather_with env s1 fd pre buffer 0).trace.countP Event.is_select
        = if env.selects = [] then 0 else 1) ∧
    (∀ ret b, (gather_with env s1 fd pre buffer 0).outcome = .returned ret b →
      ret = 100 ∧ b = buffer) ∧
    (∀ rc sels, env.selects = rc :: sels →
      (rc = 0 → (gather_with env s1 fd pre buffer 0).outcome = .returned 100 buffer ∧
        Event.notice 0 ∈ (gather_with env s1 fd pre buffer 0).trace) ∧
      (rc = -1 → (gather_with env s1 fd pre buffer 0).outcome = .returned 100 buffer) ∧
      (rc ≠ 0 → rc ≠ -1 → ∀ k rest,
        (∀ data, env.reads = List.replicate k (.err EINTR) ++ .ok data :: rest →
          (gather_with env s1 fd pre buffer 0).outcome = .returned 100 buffer ∧
          (gather_with env s1 fd pre buffer 0).trace.countP Event.is_read = k + 1) ∧
        (∀ e, e ≠ EINTR → env.reads = List.replicate k (.err EINTR) ++ .err e :: rest →
          (gather_with env s1 fd pre buffer 0).outcome
            = .stopped (.fatal (.read_error e))))) := by
  refine ⟨?_, ?_, ?_⟩
  · rw [gather_with_trace, List.countP_append, hsel,
      gather_loop_zero_selects fd env.selects env.reads ⟨buffer, 0, 0, false⟩ rfl]
    simp
  · intro ret b h
    rw [gather_with_outcome] at h
    have hb := gather_loop_buffer fd env.selects env.reads ⟨buffer, 0, 0, false⟩ (Nat.zero_le _)
    simp only [List.take_zero, List.append_nil, List.length_nil, Nat.add_zero, List.drop_zero,
      List.nil_append] at hb
    split at h
    · simp only [Outcome.returned.injEq] at h
      exact ⟨h.1.symm, by rw [← h.2, hb]⟩
    · simp at h
  · intro rc sels hs
    refine ⟨?_, ?_, ?_⟩
    · intro h0
      subst h0
      rw [gather_with_outcome, gather_with_trace, hs]
      simp [gather_loop, loop_body]
    · intro h1
      subst h1
      rw [gather_with_outcome, hs]
      simp [gather_loop, loop_body]
    · intro h0 h1 k rest
      refine ⟨?_, ?_⟩
      · intro data hr
        have hrl := read_loop_eintr_prefix fd buffer 0 0 k (.ok data :: rest)
        rw [← hr] at hrl
        have hok : read_loop fd buffer 0 0 (.ok data :: rest)
            = (ok_events fd 0 0 data, .done 0 (write_at buffer 0 []) rest) := by
          by_cases hd : data.length > 0
          · simp [read_loop, ok_events, hd]
          · have : data = [] := by
              cases data with
              | nil => rfl
              | cons a t => simp at hd
            subst this
            simp [read_loop, ok_events]
        rw [hok] at hrl
        have hw : write_at buffer 0 [] = buffer := by simp [write_at]
        rw [gather_with_outcome, gather_with_trace, hs]
        simp only [gather_loop, loop_body, h0, h1, hrl, if_false, hw]
        refine ⟨by simp, ?_⟩
        simp only [Nat.le_refl, if_true, Nat.sub_self, ne_eq, not_true_eq_false, if_false]
        rw [List.countP_append, hrd, List.countP_cons, List.countP_append,
          countP_read_eintr_events, countP_read_ok_events]
        simp [Event.is_read]
      · intro e he hr
        have hrl := read_loop_eintr_prefix fd buffer 0 0 k (.err e :: rest)
        rw [← hr] at hrl
        have hfail : read_loop fd buffer 0 0 (.err e :: rest)
            = ([.read fd 0 0 (.err e)], .failed e) := by
          simp [read_loop, he]
        rw [hfail] at hrl
        rw [gather_with_outcome, hs]
        simp [gather_loop, loop_body, h0, h1, hrl]

/-- Every read of a call is made with offset and count that add up to the
requested length. -/
theorem gather_random_read_args (cfg : Config) (env : Env) (s : Statics) (buffer : List byte)
    (L : Nat) (level : Int) :
    ∀ e ∈ (gather_random cfg env s buffer L level).trace, ∀ f o c res,
      e = .read f o c res → o + c = L := by
  intro e he f o c res heq
  rcases gather_random_cases cfg env s buffer L level with
    ⟨_, h⟩ | ⟨_, _, f1, minor, h⟩ | ⟨_, _, s1, minor, _, _, _, h⟩
  · rw [h, gather_with_trace] at he
    simp only [List.nil_append] at he
    simpa using gather_loop_read_args _ _ _ _ e he f o c res heq
  · rw [h] at he
    simp at he
    simp [he] at heq
  · rw [h, gather_with_trace] at he
    rcases List.mem_append.1 he with h' | h'
    · simp at h'
      simp [h'] at heq
    · simpa using gather_loop_read_args _ _ _ _ e h' f o c res heq

/-- C7 (amended): for length 0 `gather_random` is not free of device
interaction.  It acquires the selected device when no handle is stored, and
ends fatally when that fails; it waits at most once, and exactly once when
the device is acquired and the environment answers a wait; every read it
makes has count 0; when it returns, it returns 100 with the buffer as it was.
After the acquisition: a wait that times out emits the notice for 0 bytes and
the call returns 100; a failed wait makes the call return 100; a wait that
reports the device readable is followed by reads of count 0 until one does
not fail with EINTR, and the call returns 100 when that read returns a chunk
and ends fatally when it fails. -/
theorem C7_zero_length (cfg : Config) (env : Env) (s : Statics) (buffer : List byte)
    (level : Int) :
    (acquisition_fails cfg env s level →
      ∃ f, (gather_random cfg env s buffer 0 level).outcome = .stopped (.fatal f)) ∧
    (s.handle (selected level) = -1 →
      ∃ minor, Event.open_device (selected level) minor
        ∈ (gather_random cfg env s buffer 0 level).trace) ∧
    (gather_random cfg env s buffer 0 level).trace.countP Event.is_select ≤ 1 ∧
    (∀ e ∈ (gather_random cfg env s buffer 0 level).trace, ∀ f o c res,
      e = .read f o c res → o = 0 ∧ c = 0) ∧
    (∀ ret b, (gather_random cfg env s buffer 0 level).outcome = .returned ret b →
      ret = 100 ∧ b = buffer) ∧
    (¬ acquisition_fails cfg env s level → ∀ rc sels, env.selects = rc :: sels →
      (gather_random cfg env s buffer 0 level).trace.countP Event.is_select = 1 ∧
      (rc = 0 → (gather_random cfg env s buffer 0 level).outcome = .returned 100 buffer ∧
        Event.notice 0 ∈ (gather_random cfg env s buffer 0 level).trace) ∧
      (rc = -1 → (gather_random cfg env s buffer 0 level).outcome = .returned 100 buffer) ∧
      (rc ≠ 0 → rc ≠ -1 → ∀ k rest,
        (∀ data, env.reads = List.replicate k (.err EINTR) ++ .ok data :: rest →
          (gather_random cfg env s buffer 0 level).outcome = .returned 100 buffer ∧
          (gather_random cfg env s buffer 0 level).trace.countP Event.is_read = k + 1) ∧
        (∀ e, e ≠ EINTR → env.reads = List.replicate k (.err EINTR) ++ .err e :: rest →
          (gather_random cfg env s buffer 0 level).outcome
            = .stopped (.fatal (.read_error e))))) := by
  have hargs := gather_random_read_args cfg env s buffer 0 level
  rcases gather_random_cases cfg env s buffer 0 level with
    ⟨hs, h⟩ | ⟨hs, hf, f1, minor, h⟩ | ⟨hs, hnf, s1, minor, _, _, _, h⟩
  · obtain ⟨k1, k2, k3⟩ := gather_with_zero env s (s.handle (selected level)) [] buffer
      (by simp) (by simp)
    refine ⟨fun hf => absurd hf.1 hs, fun h' => absurd h' hs, ?_, ?_, ?_, ?_⟩
    · rw [h, k1]; split <;> omega
    · intro e he f o c res heq
      have := hargs e he f o c res heq
      omega
    · rw [h]; exact k2
    · intro _ rc sels hsel
      rw [h]
      refine ⟨?_, k3 rc sels hsel⟩
      rw [k1, hsel]; simp
  · refine ⟨fun _ => ⟨f1, by rw [h]⟩, fun _ => ⟨minor, by rw [h]; simp⟩, ?_, ?_, ?_,
      fun hn => absurd hf hn⟩
    · rw [h]; simp [Event.is_select]
    · intro e he f o c res heq
      have := hargs e he f o c res heq
      omega
    · intro ret b hout
      rw [h] at hout
      simp at hout
  · obtain ⟨k1, k2, k3⟩ := gather_with_zero env s1 (s1.handle (selected level))
      [.open_device (selected level) minor] buffer
      (by simp [Event.is_select]) (by simp [Event.is_read])
    refine ⟨fun hf => absurd hf hnf, fun _ => ⟨minor, ?_⟩, ?_, ?_, ?_, ?_⟩
    · rw [h, gather_with_trace]; simp
    · rw [h, k1]; split <;> omega
    · intro e he f o c res heq
      have := hargs e he f o c res heq
      omega
    · rw [h]; exact k2
    · intro _ rc sels hsel
      rw [h]
      refine ⟨?_, k3 rc sels hsel⟩
      rw [k1, hsel]; simp

/-- C7 at a first call for 0 bytes at level 0 whose wait reports the device
readable after one interrupted read: the device is opened, one wait and two
reads are made, and 100 is returned with the buffer as it was. -/
theorem C7_zero_length_witness :
    (∃ minor, Event.open_device (selected 0) minor
      ∈ (gather_random ⟨false, false⟩ ⟨fun _ => ⟨3, 0, true⟩, [1], [.err EINTR, .ok []]⟩ Statics.init
          [9, 9] 0 0).trace) ∧
    (gather_random ⟨false, false⟩ ⟨fun _ => ⟨3, 0, true⟩, [1], [.err EINTR, .ok []]⟩ Statics.init
        [9, 9] 0 0).trace.countP Event.is_select = 1 ∧
    (gather_random ⟨false, false⟩ ⟨fun _ => ⟨3, 0, true⟩, [1], [.err EINTR, .ok []]⟩ Statics.init
        [9, 9] 0 0).outcome = .returned 100 [9, 9] ∧
    (gather_random ⟨false, false⟩ ⟨fun _ => ⟨3, 0, true⟩, [1], [.err EINTR, .ok []]⟩ Statics.init
        [9, 9] 0 0).trace.countP Event.is_read = 1 + 1 :=
  ⟨(C7_zero_length ⟨false, false⟩ ⟨fun _ => ⟨3, 0, true⟩, [1], [.err EINTR, .ok []]⟩ Statics.init
      [9, 9] 0).2.1 (by decide),
   ((C7_zero_length ⟨false, false⟩ ⟨fun _ => ⟨3, 0, true⟩, [1], [.err EINTR, .ok []]⟩ Statics.init
      [9, 9] 0).2.2.2.2.2 (by simp [acquisition_fails, selected]) 1 [] rfl).1,
   ((((C7_zero_length ⟨false, false⟩ ⟨fun _ => ⟨3, 0, true⟩, [1], [.err EINTR, .ok []]⟩ Statics.init
      [9, 9] 0).2.2.2.2.2 (by simp [acquisition_fails, selected]) 1 [] rfl).2.2.2
        (by decide) (by decide) 1 []).1 [] rfl).1,
   ((((C7_zero_length ⟨false, false⟩ ⟨fun _ => ⟨3, 0, true⟩, [1], [.err EINTR, .ok []]⟩ Statics.init
      [9, 9] 0).2.2.2.2.2 (by simp [acquisition_fails, selected]) 1 [] rfl).2.2.2
        (by decide) (by decide) 1 []).1 [] rfl).2⟩

/-- C7 as stated fails.  A first call for 0 bytes at level 0 opens the fast
device, waits on it and reads from it; a call for 0 bytes whose wait times
out emits the notice; and a call for 0 bytes whose device cannot be opened
does not return at all. -/
theorem C7_counterexample :
    (gather_random ⟨false, false⟩ ⟨fun _ => ⟨3, 0, true⟩, [1], [.ok []]⟩ Statics.init [9, 9] 0 0).trace
      = [.open_device .NAME_OF_DEV_URANDOM 9, .select 3 1, .read 3 0 0 (.ok [])] ∧
    (gather_random ⟨false, false⟩ ⟨fun _ => ⟨3, 0, true⟩, [0], []⟩ ⟨3, -1⟩ [9, 9] 0 0).trace
      = [.select 3 0, .notice 0] ∧
    (gather_random ⟨false, false⟩ ⟨fun _ => ⟨-1, 0, true⟩, [], []⟩ Statics.init [9, 9] 0 0).outcome
      = .stopped (.fatal (.cant_open .NAME_OF_DEV_URANDOM)) := by
  refine ⟨by decide, by decide, by decide⟩

end Rndlinux
